import Mathlib

/-!
Verification of the schema-derivation core of the `swag` repository
(`reflect.go` and the `types` package), as a shallow embedding in Lean.

Go's `reflect.Type` is modelled by `Swag.GoType`: a closed tagged variant
over the structural shapes the code inspects.  A record (struct) type is
represented by its fully-qualified name; the list of its fields lives in an
explicit environment `Swag.Env`, mirroring how the reflection facility
resolves a named type to its field list.  This makes self-referential and
mutually-referential record types directly representable.

The process-wide override registry (`types.Register` / `types.Get`) is
threaded as an explicit value of type `Swag.Registry`; `ptMapping` below is
its seeded initial state from the source.
-/

set_option linter.unusedVariables false

namespace Swag

/-- The structural kinds of `reflect.Kind` that the source inspects.
`chanK`, `funcK` and `complexK` stand for the kinds the code leaves to its
default branches. -/
inductive RKind where
  | boolK | intK | int8K | int16K | int32K | int64K
  | uintK | uint8K | uint16K | uint32K | uint64K
  | float32K | float64K
  | stringK | ptrK | sliceK | arrayK | mapK | structK
  | chanK | funcK | complexK
deriving DecidableEq

/-- A Go type shape as seen through the reflection facility.  A struct is
identified by its fully-qualified name (field lists live in `Env`); a
mapping carries its value (element) type, which is the only part of a map
type the source ever inspects. -/
inductive GoType where
  | bool
  | int | int8 | int16 | int32 | int64
  | uint | uint8 | uint16 | uint32 | uint64
  | float32 | float64
  | string
  | ptr (elem : GoType)
  | slice (elem : GoType)
  | array (elem : GoType)
  | map (elem : GoType)
  | struct (name : String)
  | chan | func | complex
deriving DecidableEq

/-- `reflect.Type.Kind()`. -/
def kind : GoType → RKind
  | .bool => .boolK
  | .int => .intK
  | .int8 => .int8K
  | .int16 => .int16K
  | .int32 => .int32K
  | .int64 => .int64K
  | .uint => .uintK
  | .uint8 => .uint8K
  | .uint16 => .uint16K
  | .uint32 => .uint32K
  | .uint64 => .uint64K
  | .float32 => .float32K
  | .float64 => .float64K
  | .string => .stringK
  | .ptr _ => .ptrK
  | .slice _ => .sliceK
  | .array _ => .arrayK
  | .map _ => .mapK
  | .struct _ => .structK
  | .chan => .chanK
  | .func => .funcK
  | .complex => .complexK

/-- `reflect.Kind.String()` for the kinds of `RKind` (used by
`defineObject` to name scalar wrapper objects). -/
def kindString : RKind → String
  | .boolK => "bool"
  | .intK => "int"
  | .int8K => "int8"
  | .int16K => "int16"
  | .int32K => "int32"
  | .int64K => "int64"
  | .uintK => "uint"
  | .uint8K => "uint8"
  | .uint16K => "uint16"
  | .uint32K => "uint32"
  | .uint64K => "uint64"
  | .float32K => "float32"
  | .float64K => "float64"
  | .stringK => "string"
  | .ptrK => "ptr"
  | .sliceK => "slice"
  | .arrayK => "array"
  | .mapK => "map"
  | .structK => "struct"
  | .chanK => "chan"
  | .funcK => "func"
  | .complexK => "complex128"

/-- `reflect.Type.String()`, the fully-qualified textual name used as the
override-registry key.  For a named struct it is the qualified name itself;
for composite types the rendering of the composite (the exact spelling for
composites is immaterial to the source's behaviour: only struct names are
ever registered in the claims' scenarios). -/
def typeString : GoType → String
  | .bool => "bool"
  | .int => "int"
  | .int8 => "int8"
  | .int16 => "int16"
  | .int32 => "int32"
  | .int64 => "int64"
  | .uint => "uint"
  | .uint8 => "uint8"
  | .uint16 => "uint16"
  | .uint32 => "uint32"
  | .uint64 => "uint64"
  | .float32 => "float32"
  | .float64 => "float64"
  | .string => "string"
  | .ptr e => "*" ++ typeString e
  | .slice e => "[]" ++ typeString e
  | .array e => "[0]" ++ typeString e
  | .map e => "map[...]" ++ typeString e
  | .struct n => n
  | .chan => "chan"
  | .func => "func()"
  | .complex => "complex128"

/-- All struct names syntactically occurring in a type. -/
def collectNames : GoType → List String
  | .ptr e => collectNames e
  | .slice e => collectNames e
  | .array e => collectNames e
  | .map e => collectNames e
  | .struct n => [n]
  | _ => []

/-- One declared field of a record type, as exposed by
`reflect.StructField`: declared name, the anonymous (embedded) marker, the
struct tag (modelled as parsed key/value pairs), and the field's type. -/
structure StructField where
  name : String
  anonymous : Bool
  tags : List (String × String)
  typ : GoType
deriving DecidableEq

/-- The reflection environment: resolves a struct's fully-qualified name to
its declared field list. -/
structure Env where
  structs : List (String × List StructField)
deriving DecidableEq

/-- Association-list lookup (the model of a Go map read: missing key gives
the zero value via `Option`). -/
def alLookup {α : Type} : List (String × α) → String → Option α
  | [], _ => none
  | (k', v) :: rest, k => if k' = k then some v else alLookup rest k

/-- The keys of an association list. -/
def alKeys {α : Type} (m : List (String × α)) : List String := m.map (·.1)

/-- Association-list insert with Go map write semantics: overwrite an
existing key in place, otherwise append. -/
def alInsert {α : Type} : List (String × α) → String → α → List (String × α)
  | [], k, v => [(k, v)]
  | (k', v') :: rest, k, v =>
    if k' = k then (k, v) :: rest else (k', v') :: alInsert rest k v

/-- Field list of a named struct (`reflect` field enumeration); a name the
environment does not know resolves to no fields. -/
def envFields (env : Env) (n : String) : List StructField :=
  (alLookup env.structs n).getD []

/-- `types.ParameterType`: the schema primitive kinds.  The source compares
registry lookups against `Unknown`, and a missing registry key yields the
zero value, which therefore is `unknown` (string value `""`). -/
inductive ParameterType where
  | boolean | integer | number | string | array | object | unknown
deriving DecidableEq

/-- `ParameterType.String()`: the literal schema kind names; `unknown` is
the zero value `""` (required by `Parse`'s `pt != Unknown` test against a
missing-key lookup). -/
def ParameterType.toString : ParameterType → String
  | .boolean => "boolean"
  | .integer => "integer"
  | .number => "number"
  | .string => "string"
  | .array => "array"
  | .object => "object"
  | .unknown => ""

/-- The override registry: fully-qualified type name to schema kind. -/
abbrev Registry := List (String × ParameterType)

/-- The seeded initial state of the override registry (`ptMapping` in the
`types` package). -/
def ptMapping : Registry :=
  [("time.Time", .string), ("time.Duration", .integer), ("json.Number", .number)]

/-- `types.Register`: add or overwrite an override entry. -/
def Register (reg : Registry) (goType : String) (pt : ParameterType) : Registry :=
  alInsert reg goType pt

/-- `types.Get`: registry lookup; a missing key yields the zero value
`unknown`. -/
def Get (reg : Registry) (goType : String) : ParameterType :=
  (alLookup reg goType).getD .unknown

/-- `types.Parse`: the scalar classifier.  Unwraps pointers, consults the
override registry by the type's qualified name, then classifies by
structural kind. -/
def Parse (reg : Registry) (t : GoType) : ParameterType :=
  match t with
  | .ptr e => Parse reg e
  | _ =>
    let pt := Get reg (typeString t)
    if pt ≠ ParameterType.unknown then pt
    else
      match kind t with
      | .boolK => .boolean
      | .float32K | .float64K => .number
      | .intK | .int8K | .int16K | .int32K | .int64K
      | .uintK | .uint8K | .uint16K | .uint32K | .uint64K => .integer
      | .stringK => .string
      | .arrayK | .sliceK => .array
      | .structK | .mapK => .object
      | _ => .unknown

/-- `types.Format`: the numeric width refinement tags; `none` renders as
`""`. -/
inductive Format where
  | none | int32 | int64 | double | float
deriving DecidableEq

/-- `Format.String()`. -/
def Format.toString : Format → String
  | .none => ""
  | .int32 => "int32"
  | .int64 => "int64"
  | .double => "double"
  | .float => "float"

/-- `types.ParseFormat`: the format classifier.  Unwraps pointers; no
registry consultation. -/
def ParseFormat (t : GoType) : Format :=
  match t with
  | .ptr e => ParseFormat e
  | _ =>
    match kind t with
    | .intK | .int8K | .int16K | .int32K | .uint8K | .uint16K | .uint32K => .int32
    | .int64K | .uint64K => .int64
    | .float64K => .double
    | .float32K => .float
    | _ => .none

/-- Modelled from the spec: `makeName` (declared outside the provided
sources) computes the derived schema name as a stable identifier from the
type's own declared name, and for a sequence/mapping from the container
type itself; its textual rendering is exactly the qualified type name. -/
def makeName (t : GoType) : String := typeString t

/-- Modelled from the spec: `makeRef` (declared outside the provided
sources) turns a derived name into a by-name reference usable in a
definitions table. -/
def makeRef (n : String) : String := "#/definitions/" ++ n

/-- ASCII whitespace test for the model of `strings.TrimSpace`. -/
def isSpaceChar (c : Char) : Bool :=
  c = ' ' || c = '\t' || c = '\n' || c = '\r'

/-- Model of `strings.TrimSpace`: drop whitespace from both ends. -/
def goTrim (s : String) : String :=
  String.mk (((s.data.dropWhile isSpaceChar).reverse.dropWhile isSpaceChar).reverse)

/-- Model of `strings.Split(s, ",")` over the character list. -/
def goSplitCommaAux : List Char → List Char → List String
  | [], acc => [String.mk acc.reverse]
  | c :: cs, acc =>
    if c = ',' then String.mk acc.reverse :: goSplitCommaAux cs []
    else goSplitCommaAux cs (c :: acc)

/-- Model of `strings.Split(s, ",")`: always returns at least one segment,
the whole string when no comma occurs. -/
def goSplitComma (s : String) : List String := goSplitCommaAux s.data []

/-- The first comma-separated segment of a string
(`strings.Split(s, ",")[0]`). -/
def firstSeg (s : String) : String := (goSplitComma s).headD ""

/-- Model of `strings.HasPrefix(s, ",")`: does the string start with a
comma? -/
def goStartsComma (s : String) : Bool :=
  match s.data with
  | [] => false
  | c :: _ => c = ','

/-- Model of `strings.Contains(s, sub)` over character lists. -/
def goHasSubAux : List Char → List Char → Bool
  | s, sub =>
    if sub.isPrefixOf s then true
    else
      match s with
      | [] => false
      | _ :: cs => goHasSubAux cs sub

/-- Model of `strings.Contains`. -/
def goContains (s sub : String) : Bool := goHasSubAux s.data sub.data

/-- `reflect.StructTag.Get`: the value stored under a tag key, `""` when
the key is absent. -/
def tagGet (tags : List (String × String)) (k : String) : String :=
  (alLookup tags k).getD ""

/-- `reflect.StructTag.Lookup` presence test (the `, ok` form). -/
def tagHas (tags : List (String × String)) (k : String) : Bool :=
  (alLookup tags k).isSome

/-- The `Property` schema fragment of `reflect.go`: Go type handle,
rendered kind and format, by-name reference, element property for map
values (`AdditionalProperties`) and array/slice elements (`Items`), and the
metadata overlays.  Recursive through the two `Option` fields, hence an
inductive rather than a structure. -/
inductive Property where
  | mk (goType : GoType) (type format ref : String)
      (additionalProperties items : Option Property)
      (Example Description : String) (enum : List String)

/-- The `GoType` field of a property. -/
def Property.goType : Property → GoType
  | .mk g _ _ _ _ _ _ _ _ => g

/-- The rendered `Type` field of a property. -/
def Property.type : Property → String
  | .mk _ t _ _ _ _ _ _ _ => t

/-- The rendered `Format` field of a property. -/
def Property.format : Property → String
  | .mk _ _ f _ _ _ _ _ _ => f

/-- The `Ref` field of a property (`""` when absent). -/
def Property.ref : Property → String
  | .mk _ _ _ r _ _ _ _ _ => r

/-- The `AdditionalProperties` field of a property. -/
def Property.additionalProperties : Property → Option Property
  | .mk _ _ _ _ ap _ _ _ _ => ap

/-- The `Items` field of a property. -/
def Property.items : Property → Option Property
  | .mk _ _ _ _ _ it _ _ _ => it

/-- The `Example` field of a property. -/
def Property.Example : Property → String
  | .mk _ _ _ _ _ _ e _ _ => e

/-- The `Description` field of a property. -/
def Property.Description : Property → String
  | .mk _ _ _ _ _ _ _ d _ => d

/-- The `Enum` field of a property. -/
def Property.enum : Property → List String
  | .mk _ _ _ _ _ _ _ _ en => en

/-- Overwrite the `Example` field. -/
def Property.setExample : Property → String → Property
  | .mk g t f r ap it _ d en, e => .mk g t f r ap it e d en

/-- Overwrite the `Description` field. -/
def Property.setDescription : Property → String → Property
  | .mk g t f r ap it e _ en, d => .mk g t f r ap it e d en

/-- Overwrite the `Enum` field. -/
def Property.setEnum : Property → List String → Property
  | .mk g t f r ap it e d _, en => .mk g t f r ap it e d en

/-- `inspect` of `reflect.go`: the Property Inspector.  Unwraps pointers,
classifies kind and format, then: a struct is replaced by a by-name
reference (the inline kind is cleared); a map stores the inspected value
type under `AdditionalProperties`; a slice/array unwraps its own `GoType`
to the element type and stores the inspected element under `Items`. -/
def inspect (reg : Registry) : GoType → Property
  | .ptr e => inspect reg e
  | .struct n =>
    Property.mk (.struct n) "" (ParseFormat (.struct n)).toString
      (makeRef (makeName (.struct n))) none none "" "" []
  | .map e =>
    Property.mk (.map e) (Parse reg (.map e)).toString (ParseFormat (.map e)).toString ""
      (some (inspect reg e)) none "" "" []
  | .slice e =>
    Property.mk e (Parse reg (.slice e)).toString (ParseFormat (.slice e)).toString ""
      none (some (inspect reg e)) "" "" []
  | .array e =>
    Property.mk e (Parse reg (.array e)).toString (ParseFormat (.array e)).toString ""
      none (some (inspect reg e)) "" "" []
  | t =>
    Property.mk t (Parse reg t).toString (ParseFormat t).toString ""
      none none "" "" []

/-- The unexported-field skip of `buildProperty`:
`strings.ToLower(field.Name[0:1]) == field.Name[0:1]` (the host language's
package-private visibility marker). -/
def skipField (f : StructField) : Bool :=
  match f.name.data with
  | [] => true
  | c :: _ => c.toLower = c

/-- The external field name computed by `buildProperty`: trim the naming
annotation; an empty or comma-headed annotation falls back to the declared
name, otherwise take the first comma-separated segment (the source splits a
second, redundant time). -/
def fieldEntryName (f : StructField) : String :=
  let raw := goTrim (tagGet f.tags "json")
  let n1 := if raw = "" || goStartsComma raw then f.name else firstSeg raw
  firstSeg n1

/-- The `,string` presentation coercion of `buildProperty`: a zero
Property with kind forced to `string` and the field's own Go type. -/
def stringCoerceProp (f : StructField) : Property :=
  Property.mk f.typ ParameterType.string.toString "" "" none none "" "" []

/-- The metadata overlays of `buildProperty`, in source order: `example`,
`description`, `desc` (overriding `description`), `enum` (split on
commas). -/
def applyOverlays (p : Property) (tags : List (String × String)) : Property :=
  let p1 := if tagGet tags "example" ≠ "" then p.setExample (tagGet tags "example") else p
  let p2 := if tagGet tags "description" ≠ "" then p1.setDescription (tagGet tags "description") else p1
  let p3 := if tagGet tags "desc" ≠ "" then p2.setDescription (tagGet tags "desc") else p2
  if tagGet tags "enum" ≠ "" then p3.setEnum (goSplitComma (tagGet tags "enum")) else p3

/-- The Property built for one non-anonymous field: the `,string`
presentation coercion when the raw annotation contains `,string`,
otherwise the Property Inspector's result; metadata overlays applied on
top. -/
def fieldProp (reg : Registry) (f : StructField) : Property :=
  let base :=
    if goContains (tagGet f.tags "json") ",string" then stringCoerceProp f
    else inspect reg f.typ
  applyOverlays base f.tags

/-- Splice a field mapping into an accumulated mapping
(`for name, p := range ps { properties[name] = p }`). -/
def spliceProps (props : List (String × Property)) (ps : List (String × Property)) :
    List (String × Property) :=
  ps.foldl (fun m kv => alInsert m kv.1 kv.2) props

/-- The field loop of `buildProperty`, in declaration order: skip
unexported fields; recursively enumerate (via `recurse`, the enumerator at
one less anonymous-nesting fuel) and splice anonymous substructures,
discarding their required list; otherwise compute the external name, honor
the `json:"-"` omission, record the `required` marker, and store the
field's Property under the external name. -/
def buildPropFields (reg : Registry) (env : Env)
    (recurse : GoType → Option (List (String × Property) × List String)) :
    List StructField → List (String × Property) → List String →
    Option (List (String × Property) × List String)
  | [], props, req => some (props, req)
  | f :: rest, props, req =>
    if skipField f then buildPropFields reg env recurse rest props req
    else if f.anonymous then
      match recurse f.typ with
      | none => none
      | some (ps, _) => buildPropFields reg env recurse rest (spliceProps props ps) req
    else
      let name := fieldEntryName f
      if name = "-" then buildPropFields reg env recurse rest props req
      else
        buildPropFields reg env recurse rest (alInsert props name (fieldProp reg f))
          (if tagHas f.tags "required" then req ++ [name] else req)

/-- `buildProperty` of `reflect.go`: the Field Enumerator.  Enumerating a
non-record type calls `NumField` on it, a runtime panic in the host
reflection model, rendered as `none`; the fuel bounds the depth of
anonymous-substructure recursion (which the source performs with no guard,
so an embedded cycle diverges; exhausted fuel is likewise `none`). -/
def buildProperty (reg : Registry) (env : Env) : Nat → GoType → Option (List (String × Property) × List String)
  | 0 => fun _ => none
  | fuel + 1 => fun t =>
    match t with
    | GoType.struct n =>
      buildPropFields reg env (buildProperty reg env fuel) (envFields env n) [] []
    | _ => none

/-- The `Object` schema object of `reflect.go`: one entry of the derived
definitions table. -/
structure Object where
  name : String
  type : String
  format : String
  required : List String
  properties : List (String × Property)
  items : Option Property
  additionalProperties : Option Property

/-- `defineObject` of `reflect.go`: the Object Definer.  Unwraps pointers;
a slice/array is named from the container and carries its inspected
element under `Items` with kind `array`; a map likewise under
`AdditionalProperties` with kind `object`; a struct delegates to the Field
Enumerator (whose panic propagates as `none`); anything else becomes a
scalar wrapper object named after its kind string. -/
def defineObject (reg : Registry) (env : Env) (bf : Nat) : GoType → Option Object
  | .ptr e => defineObject reg env bf e
  | .slice e =>
    some ⟨makeName (.slice e), ParameterType.array.toString, "", [], [], some (inspect reg e), none⟩
  | .array e =>
    some ⟨makeName (.array e), ParameterType.array.toString, "", [], [], some (inspect reg e), none⟩
  | .map e =>
    some ⟨makeName (.map e), ParameterType.object.toString, "", [], [], none, some (inspect reg e)⟩
  | .struct n =>
    (buildProperty reg env bf (.struct n)).map fun pr =>
      ⟨makeName (.struct n), ParameterType.object.toString, "", pr.2, pr.1, none, none⟩
  | t =>
    let p := inspect reg t
    some ⟨kindString (kind t), p.type, p.format, [], [], none, none⟩

/-- The `AdditionalProperties` chain walked by `define`'s closure loop:
the property itself followed by the chain of its
`AdditionalProperties`. -/
def chainProps : Property → List Property
  | .mk g t f r ap it e d en =>
    Property.mk g t f r ap it e d en ::
      (match ap with
       | none => []
       | some q => chainProps q)

/-- The Go types examined by the closure loop for one object: the `GoType`
of every property in every field property's `AdditionalProperties`
chain. -/
def propsChainTypes (o : Object) : List GoType :=
  (o.properties.map (·.2)).flatMap (fun p => (chainProps p).map Property.goType)

/-- One examined type inside a closure pass: a struct type whose derived
name is not yet a key gets its object defined and inserted (keyed by the
object's name) and marks the pass dirty; a failing `defineObject`
propagates. -/
def stepT (reg : Registry) (env : Env) (bf : Nat)
    (acc : Option (List (String × Object) × Bool)) (t : GoType) :
    Option (List (String × Object) × Bool) :=
  match acc with
  | none => none
  | some (m, d) =>
    if kind t = RKind.structK then
      if makeName t ∈ alKeys m then some (m, d)
      else
        match defineObject reg env bf t with
        | none => none
        | some child => some (m ++ [(child.name, child)], true)
    else some (m, d)

/-- Process one object of the snapshot inside a closure pass. -/
def stepObj (reg : Registry) (env : Env) (bf : Nat)
    (acc : Option (List (String × Object) × Bool)) (kv : String × Object) :
    Option (List (String × Object) × Bool) :=
  (propsChainTypes kv.2).foldl (stepT reg env bf) acc

/-- One pass of `define`'s dirty-flag loop over a snapshot of the working
object map, in the iteration order chosen by `sched` (Go map iteration
order is unspecified; a schedule fixes one). -/
def passOnceOrd (reg : Registry) (env : Env) (bf : Nat)
    (sched : List (String × Object) → List (String × Object))
    (m : List (String × Object)) : Option (List (String × Object) × Bool) :=
  (sched m).foldl (stepObj reg env bf) (some (m, false))

/-- `define`'s dirty-flag loop: repeat passes while dirty; the loop fuel
only rules out an infinite sequence of dirty passes and is chosen large
enough below to never be the reason for `none`. -/
def defineLoopOrd (reg : Registry) (env : Env) (bf : Nat)
    (sched : List (String × Object) → List (String × Object)) :
    Nat → List (String × Object) → Option (List (String × Object))
  | 0, _ => none
  | fuel + 1, m =>
    match passOnceOrd reg env bf sched m with
    | none => none
    | some (m', d) => if d then defineLoopOrd reg env bf sched fuel m' else some m'

/-- All struct names a derivation from this environment and root can ever
mention: the names occurring in any declared field type, plus the root
object's own name. -/
def envNames (env : Env) : List String :=
  env.structs.flatMap (fun kv => kv.2.flatMap (fun f => collectNames f.typ))

/-- The key universe of the closure loop: the root object's name followed
by every struct name reachable through the environment. -/
def allowedNames (reg : Registry) (env : Env) (bf : Nat) (root : GoType) : List String :=
  (match defineObject reg env bf root with
   | some o => [o.name]
   | none => []) ++ envNames env

/-- Loop fuel that the termination proof shows is never exhausted. -/
def loopFuel (reg : Registry) (env : Env) (bf : Nat) (root : GoType) : Nat :=
  (allowedNames reg env bf root).dedup.length + 2

/-- `define` of `reflect.go` with an explicit iteration schedule: seed the
working map with the root object keyed by its derived name, then run the
dirty-flag closure loop. -/
def defineOrd (reg : Registry) (env : Env) (bf : Nat)
    (sched : List (String × Object) → List (String × Object)) (root : GoType) :
    Option (List (String × Object)) :=
  match defineObject reg env bf root with
  | none => none
  | some obj => defineLoopOrd reg env bf sched (loopFuel reg env bf root) [(obj.name, obj)]

/-- `define` of `reflect.go`: the Graph Closure Builder, with the snapshot
iteration order (one resolution of Go's unspecified map order). -/
def define (reg : Registry) (env : Env) (bf : Nat) (root : GoType) :
    Option (List (String × Object)) :=
  defineOrd reg env bf (fun m => m) root

/-- A schedule is any per-pass permutation of the snapshot. -/
def IsSched (sched : List (String × Object) → List (String × Object)) : Prop :=
  ∀ m, List.Perm (sched m) m

/-! ## Spec-side comparison tables and invariant predicates -/

/-- The scalar-classification table exactly as the spec words it (claim
C4): boolean, every integer width, every floating width, string,
array/slice, record/mapping, and everything else unknown.  Pointers are
covered by the separate unwrap clause and never consulted here. -/
def specC4Kind : GoType → ParameterType
  | .bool => .boolean
  | .int | .int8 | .int16 | .int32 | .int64
  | .uint | .uint8 | .uint16 | .uint32 | .uint64 => .integer
  | .float32 | .float64 => .number
  | .string => .string
  | .array _ | .slice _ => .array
  | .struct _ | .map _ => .object
  | _ => .unknown

/-- The format-classification table exactly as claim C5 words it: 8/16/32
bit integer widths (signed or unsigned) to int32, 64-bit integer widths to
int64, 64-bit floats to double, 32-bit floats to float, every other type
(which then includes the platform-sized `int` and `uint`) to none. -/
def specC5Format : GoType → Format
  | .int8 | .int16 | .int32 | .uint8 | .uint16 | .uint32 => .int32
  | .int64 | .uint64 => .int64
  | .float64 => .double
  | .float32 => .float
  | _ => .none

/-- The format table as amended to match the source: the platform-sized
`int` also maps to int32, while the platform-sized `uint` falls through to
none with every other non-width type. -/
def specC5Amended : GoType → Format
  | .int | .int8 | .int16 | .int32 | .uint8 | .uint16 | .uint32 => .int32
  | .int64 | .uint64 => .int64
  | .float64 => .double
  | .float32 => .float
  | _ => .none

/-- The (ref, GoType) signature of a property's `AdditionalProperties`
chain: everything the closure loop and the reference invariant look at. -/
def chainSig (p : Property) : List (String × GoType) :=
  (chainProps p).map fun q => (q.ref, q.goType)

/-- Chain well-formedness of one stored property: every chain member's
reference, when present, is the rendered reference to its own struct
`GoType`'s derived name, and every struct `GoType` in the chain is a name
the environment can reach. -/
def SigOK (env : Env) (p : Property) : Prop :=
  ∀ rg ∈ chainSig p,
    (rg.1 ≠ "" → ∃ m, rg.2 = GoType.struct m ∧ rg.1 = makeRef m) ∧
    (∀ m, rg.2 = GoType.struct m → m ∈ envNames env)

/-- Chain well-formedness of every field property of an object. -/
def ObjOK (env : Env) (o : Object) : Prop :=
  ∀ fp ∈ o.properties, SigOK env fp.2

/-- Chain well-formedness of every object of a working map. -/
def GraphOK (env : Env) (m : List (String × Object)) : Prop :=
  ∀ kv ∈ m, ObjOK env kv.2

/-- The canonical object stored under a key: the root object under the
root key, otherwise the schedule-independent `defineObject` of the struct
named by the key itself. -/
def objAt (reg : Registry) (env : Env) (bf : Nat) (rootObj : Object) (k : String) : Option Object :=
  if k = rootObj.name then some rootObj else defineObject reg env bf (GoType.struct k)

/-- The names discoverable by the closure loop: the root object's name and
everything reachable from it through canonical objects' examined struct
types.  Schedule-independent by construction. -/
inductive Reach (reg : Registry) (env : Env) (bf : Nat) (rootObj : Object) : String → Prop
  | root : Reach reg env bf rootObj rootObj.name
  | step (k : String) (o : Object) (t : GoType) :
      Reach reg env bf rootObj k → objAt reg env bf rootObj k = some o →
      t ∈ propsChainTypes o → kind t = RKind.structK →
      Reach reg env bf rootObj (makeName t)

/-- Value invariant of the working map: every stored entry is the
canonical object of its key. -/
def VInv (reg : Registry) (env : Env) (bf : Nat) (rootObj : Object)
    (m : List (String × Object)) : Prop :=
  ∀ kv ∈ m, objAt reg env bf rootObj kv.1 = some kv.2

/-- Soundness invariant of the working map: every key is discoverable. -/
def SInv (reg : Registry) (env : Env) (bf : Nat) (rootObj : Object)
    (m : List (String × Object)) : Prop :=
  ∀ k ∈ alKeys m, Reach reg env bf rootObj k

/-- Key-universe invariant of the working map relative to a root. -/
def KAllowed (reg : Registry) (env : Env) (bf : Nat) (root : GoType)
    (m : List (String × Object)) : Prop :=
  ∀ k ∈ alKeys m, k ∈ allowedNames reg env bf root

/-! ## Concrete scenarios used by counterexamples and witnesses -/

/-- Registry with the record type `pkg.SpecialType` registered under kind
integer (claim C1's scenario). -/
def c1reg : Registry := Register ptMapping "pkg.SpecialType" ParameterType.integer

/-- A record `Outer` containing a field of the registered record type,
which itself has internal fields. -/
def c1env : Env :=
  ⟨[("Outer", [⟨"S", false, [], GoType.struct "pkg.SpecialType"⟩]),
    ("pkg.SpecialType", [⟨"X", false, [], GoType.int⟩])]⟩

/-- A record `A` holding an array-of-array-of-record field, and the record
`B` it references (claim C2's scenario). -/
def c2env : Env :=
  ⟨[("A", [⟨"F", false, [], GoType.slice (GoType.slice (GoType.struct "B"))⟩]),
    ("B", [⟨"X", false, [], GoType.int⟩])]⟩

/-- The graph the closure builder derives for root `A` of `c2env`. -/
def c2graph : List (String × Object) :=
  (define ptMapping c2env 2 (GoType.struct "A")).getD []

/-- A self-referential record: `Rec` refers to itself both through a
pointer field and through a sequence field (claim C3's scenario). -/
def recEnv : Env :=
  ⟨[("Rec", [⟨"Next", false, [], GoType.ptr (GoType.struct "Rec")⟩,
             ⟨"Kids", false, [], GoType.slice (GoType.struct "Rec")⟩])]⟩

/-- The graph derived for the self-referential `Rec`. -/
def recGraph : List (String × Object) :=
  (define ptMapping recEnv 2 (GoType.struct "Rec")).getD []

/-- A single exported field annotated `json:"alias,omitempty"` (claim C6's
flagship case). -/
def c6env : Env :=
  ⟨[("T", [⟨"Name", false, [("json", "alias,omitempty")], GoType.string⟩])]⟩

/-- An embedded substructure with a required field of its own: `Outer7`
embeds `Inner`, whose field `Name` is marked required (claim C7's
scenario). -/
def c7env : Env :=
  ⟨[("Outer7", [⟨"Inner", true, [], GoType.struct "Inner"⟩]),
    ("Inner", [⟨"Name", false, [("required", "")], GoType.string⟩])]⟩

/-- A record with one required and one optional field (claim C9's
witness). -/
def c9env : Env :=
  ⟨[("Pet", [⟨"Name", false, [], GoType.string⟩,
             ⟨"Tags", false, [("required", "")], GoType.slice GoType.string⟩])]⟩

/-- A record with an exported anonymous field of pointer-to-record type
(claim C10's scenario). -/
def c10env : Env :=
  ⟨[("P", [⟨"Q", true, [], GoType.ptr (GoType.struct "Q")⟩]), ("Q", [])]⟩

/-- A diamond of records whose closure takes several passes with several
objects contributing discoveries per pass, so that different iteration
orders insert in different orders (claim C8's witness). -/
def c8env : Env :=
  ⟨[("A", [⟨"Fb", false, [], GoType.struct "B"⟩, ⟨"Fc", false, [], GoType.struct "C"⟩]),
    ("B", [⟨"Fd", false, [], GoType.struct "D"⟩]),
    ("C", [⟨"Fe", false, [], GoType.struct "E"⟩]),
    ("D", []), ("E", [])]⟩

/-- The `c8env` graph under the snapshot order. -/
def c8graph1 : List (String × Object) :=
  (defineOrd ptMapping c8env 2 (fun m => m) (GoType.struct "A")).getD []

/-- The `c8env` graph under the reversed snapshot order. -/
def c8graph2 : List (String × Object) :=
  (defineOrd ptMapping c8env 2 (fun m => m.reverse) (GoType.struct "A")).getD []

/-- Zero-value object used as a lookup default in concrete statements. -/
def emptyObject : Object := ⟨"", "", "", [], [], none, none⟩

/-- Zero-value property used as a lookup default in concrete statements. -/
def emptyProperty : Property := Property.mk GoType.bool "" "" "" none none "" "" []

/-- The property stored for field `F` of object `A` in the `c2env`
graph. -/
def c2prop : Property :=
  (alLookup ((alLookup c2graph "A").getD emptyObject).properties "F").getD emptyProperty

/-- A record `OuterW` with a direct record field of type `Inner` (claim
C2's witness scenario: the kind of reference the closure loop does
resolve). -/
def w2env : Env :=
  ⟨[("OuterW", [⟨"S", false, [], GoType.struct "Inner"⟩]),
    ("Inner", [⟨"X", false, [], GoType.int⟩])]⟩

/-- The graph derived for `OuterW`. -/
def w2graph : List (String × Object) :=
  (define ptMapping w2env 2 (GoType.struct "OuterW")).getD []

/-- The `OuterW` object of `w2graph`. -/
def w2obj : Object := (alLookup w2graph "OuterW").getD emptyObject

/-- The `Inner` object of `w2graph`. -/
def w2objI : Object := (alLookup w2graph "Inner").getD emptyObject

/-- The property stored for field `S` of `OuterW`. -/
def w2prop : Property := (alLookup w2obj.properties "S").getD emptyProperty

/-! ## Association-list lemmas -/

theorem alLookup_mem {α : Type} {m : List (String × α)} {k : String} {v : α}
    (h : alLookup m k = some v) : (k, v) ∈ m := by
  induction m with
  | nil => simp [alLookup] at h
  | cons kv rest ih =>
    obtain ⟨k', v'⟩ := kv
    simp only [alLookup] at h
    split at h
    · cases h
      subst_vars
      exact List.mem_cons_self _ _
    · exact List.mem_cons_of_mem _ (ih h)

theorem alLookup_eq_none {α : Type} {m : List (String × α)} {k : String} :
    alLookup m k = none ↔ k ∉ alKeys m := by
  induction m with
  | nil => simp [alLookup, alKeys]
  | cons kv rest ih =>
    obtain ⟨k', v'⟩ := kv
    simp only [alLookup, alKeys, List.map_cons, List.mem_cons]
    split
    · subst_vars
      simp
    · simp only [ih, alKeys]
      constructor
      · intro h hk
        rcases hk with hk | hk
        · exact ‹k' ≠ k› hk.symm
        · exact h hk
      · intro h hk
        exact h (Or.inr hk)

theorem mem_alKeys {α : Type} {m : List (String × α)} {k : String} :
    k ∈ alKeys m ↔ ∃ v, (k, v) ∈ m := by
  simp only [alKeys, List.mem_map]
  constructor
  · rintro ⟨⟨a, b⟩, hm, rfl⟩
    exact ⟨b, hm⟩
  · rintro ⟨v, hv⟩
    exact ⟨(k, v), hv, rfl⟩

theorem alLookup_of_mem_nodup {α : Type} {m : List (String × α)} {k : String} {v : α}
    (hm : (k, v) ∈ m) (hnd : (alKeys m).Nodup) : alLookup m k = some v := by
  induction m with
  | nil => simp at hm
  | cons kv rest ih =>
    obtain ⟨k', v'⟩ := kv
    simp only [alKeys, List.map_cons, List.nodup_cons] at hnd
    rcases List.mem_cons.1 hm with heq | hmem
    · cases heq
      simp [alLookup]
    · have hk : k' ≠ k := by
        rintro rfl
        exact hnd.1 (mem_alKeys.2 ⟨v, hmem⟩)
      simp only [alLookup, if_neg hk]
      exact ih hmem hnd.2

theorem alKeys_append {α : Type} (m₁ m₂ : List (String × α)) :
    alKeys (m₁ ++ m₂) = alKeys m₁ ++ alKeys m₂ := by
  simp [alKeys]

theorem mem_alInsert {α : Type} {m : List (String × α)} {k : String} {v : α} {kv : String × α}
    (h : kv ∈ alInsert m k v) : kv ∈ m ∨ kv = (k, v) := by
  induction m with
  | nil => simp [alInsert] at h; simp [h]
  | cons kv' rest ih =>
    obtain ⟨k', v'⟩ := kv'
    simp only [alInsert] at h
    split at h
    · rcases List.mem_cons.1 h with heq | hmem
      · exact Or.inr heq
      · exact Or.inl (List.mem_cons_of_mem _ hmem)
    · rcases List.mem_cons.1 h with heq | hmem
      · exact Or.inl (List.mem_cons.2 (Or.inl heq))
      · rcases ih hmem with hh | hh
        · exact Or.inl (List.mem_cons_of_mem _ hh)
        · exact Or.inr hh

theorem alKeys_alInsert_of_mem {α : Type} {m : List (String × α)} {k : String} (v : α)
    (h : k ∈ alKeys m) : alKeys (alInsert m k v) = alKeys m := by
  induction m with
  | nil => simp [alKeys] at h
  | cons kv rest ih =>
    obtain ⟨k', v'⟩ := kv
    simp only [alKeys, List.map_cons, List.mem_cons] at h
    simp only [alInsert]
    by_cases hk : k' = k
    · subst hk
      simp [alKeys]
    · rw [if_neg hk]
      rcases h with heq | h
      · exact absurd heq.symm hk
      · have h2 := ih h
        simp only [alKeys, List.map_cons] at h2 ⊢
        rw [h2]

theorem alInsert_of_notMem {α : Type} {m : List (String × α)} {k : String} (v : α)
    (h : k ∉ alKeys m) : alInsert m k v = m ++ [(k, v)] := by
  induction m with
  | nil => simp [alInsert]
  | cons kv rest ih =>
    obtain ⟨k', v'⟩ := kv
    simp only [alKeys, List.map_cons, List.mem_cons] at h
    push_neg at h
    simp only [alInsert, if_neg (Ne.symm h.1)]
    simp [ih h.2]

theorem alKeys_alInsert_sub {α : Type} (m : List (String × α)) (k : String) (v : α) :
    ∀ x ∈ alKeys m, x ∈ alKeys (alInsert m k v) := by
  intro x hx
  by_cases hk : k ∈ alKeys m
  · rwa [alKeys_alInsert_of_mem v hk]
  · rw [alInsert_of_notMem v hk, alKeys_append]
    exact List.mem_append_left _ hx

theorem mem_alKeys_alInsert_self {α : Type} (m : List (String × α)) (k : String) (v : α) :
    k ∈ alKeys (alInsert m k v) := by
  by_cases hk : k ∈ alKeys m
  · rwa [alKeys_alInsert_of_mem v hk]
  · rw [alInsert_of_notMem v hk, alKeys_append]
    simp [alKeys]

theorem alKeys_alInsert_nodup {α : Type} {m : List (String × α)} (k : String) (v : α)
    (h : (alKeys m).Nodup) : (alKeys (alInsert m k v)).Nodup := by
  by_cases hk : k ∈ alKeys m
  · rwa [alKeys_alInsert_of_mem v hk]
  · rw [alInsert_of_notMem v hk, alKeys_append]
    simp only [alKeys, List.map_cons, List.map_nil]
    exact List.Nodup.append h (List.nodup_singleton k) (by
      intro a ha hb
      simp at hb
      subst hb
      exact hk ha)

/-! ## Claim C4: totality and structural table of the scalar classifier -/

theorem Parse_unwrap_ptr (reg : Registry) (e : GoType) :
    Parse reg (GoType.ptr e) = Parse reg e := rfl

/-- C4.  For every type descriptor the scalar classifier returns exactly
one kind (it is a total function); pointers are unwrapped transitively;
and in the absence of a matching registry override the classification
follows the structural table of the claim: boolean to boolean, every
integer width to integer, every floating width to number, string to
string, array/slice to array, record and mapping to object, and every
other kind (function, channel, complex) to unknown. -/
theorem C4_classifier_table :
    (∀ reg e, Parse reg (GoType.ptr e) = Parse reg e) ∧
    (∀ (reg : Registry) (t : GoType), kind t ≠ RKind.ptrK →
      Get reg (typeString t) = ParameterType.unknown → Parse reg t = specC4Kind t) := by
  refine ⟨fun reg e => rfl, fun reg t hk hg => ?_⟩
  cases t <;> first
    | exact absurd rfl hk
    | simp [Parse, hg, kind, specC4Kind]

/-- C4 witness: the table evaluated at a channel type with the seed
registry. -/
theorem C4_classifier_table_witness :
    Parse ptMapping (GoType.ptr GoType.chan) = Parse ptMapping GoType.chan ∧
    Parse ptMapping GoType.chan = specC4Kind GoType.chan :=
  ⟨C4_classifier_table.1 ptMapping GoType.chan,
   C4_classifier_table.2 ptMapping GoType.chan (by decide) (by rfl)⟩

/-! ## Claim C5: the format classifier table -/

/-- C5 counterexample: the claim's table sends every type other than the
explicit 8/16/32/64-bit widths and floats to `none`, but the source maps
the platform-sized `int` to `int32`. -/
theorem C5_format_counterexample :
    ParseFormat GoType.int ≠ specC5Format GoType.int ∧
    ParseFormat GoType.int = Format.int32 ∧ specC5Format GoType.int = Format.none :=
  ⟨by decide, rfl, rfl⟩

/-- C5 as amended: pointers are unwrapped transitively, the registry is
not consulted (the classifier takes none), 8/16/32-bit widths map to
int32 and so does the platform-sized `int`, 64-bit widths map to int64,
float64 to double, float32 to float, and everything else (including the
platform-sized `uint`) to none. -/
theorem C5_format_amended :
    (∀ e, ParseFormat (GoType.ptr e) = ParseFormat e) ∧
    (∀ t : GoType, kind t ≠ RKind.ptrK → ParseFormat t = specC5Amended t) := by
  refine ⟨fun e => rfl, fun t hk => ?_⟩
  cases t <;> first
    | exact absurd rfl hk
    | simp [ParseFormat, kind, specC5Amended]

/-- C5 witness: the amended table evaluated at `uint8` and at a pointer to
`uint`. -/
theorem C5_format_amended_witness :
    ParseFormat (GoType.ptr GoType.uint) = ParseFormat GoType.uint ∧
    ParseFormat GoType.uint8 = specC5Amended GoType.uint8 :=
  ⟨C5_format_amended.1 GoType.uint,
   C5_format_amended.2 GoType.uint8 (by decide)⟩

/-! ## Claim C1: override precedence in the Property Inspector -/

theorem alLookup_alInsert_self {α : Type} (m : List (String × α)) (k : String) (v : α) :
    alLookup (alInsert m k v) k = some v := by
  induction m with
  | nil => simp [alInsert, alLookup]
  | cons kv rest ih =>
    obtain ⟨k', v'⟩ := kv
    simp only [alInsert]
    by_cases hk : k' = k
    · rw [if_pos hk]
      simp [alLookup]
    · rw [if_neg hk]
      simp only [alLookup, if_neg hk]
      exact ih

theorem Get_Register_self (reg : Registry) (k : String) (K : ParameterType) :
    Get (Register reg k K) k = K := by
  simp [Get, Register, alLookup_alInsert_self]

theorem Parse_override (reg : Registry) (t : GoType) (hk : kind t ≠ RKind.ptrK)
    (hg : Get reg (typeString t) ≠ ParameterType.unknown) :
    Parse reg t = Get reg (typeString t) := by
  cases t <;> first
    | exact absurd rfl hk
    | simp [Parse, hg]

/-- C1 counterexample: with the record type `pkg.SpecialType` registered
under kind integer, deriving the record `Outer` containing a field of that
type produces a property whose kind is empty and which carries a by-name
reference — not a property of kind integer as the claim states. -/
theorem C1_override_counterexample :
    (buildProperty c1reg c1env 2 (GoType.struct "Outer")).map
        (fun r => r.1.map fun kv => (kv.1, kv.2.type, kv.2.ref))
      = some [("S", "", makeRef "pkg.SpecialType")] ∧
    ParameterType.integer.toString = "integer" ∧ ("" : String) ≠ "integer" :=
  ⟨rfl, rfl, by decide⟩

/-- C1 as amended: a registry override on a type's qualified name does
flow into the derived property's kind for every structural kind except
record; for a record type the Property Inspector unconditionally replaces
the inline kind by a by-name reference (the reference supersedes the
registered kind). -/
theorem C1_override_amended (reg : Registry) (qn : String) (K : ParameterType) (t : GoType)
    (hK : K ≠ ParameterType.unknown) (hp : kind t ≠ RKind.ptrK) (hqn : typeString t = qn) :
    (kind t ≠ RKind.structK → (inspect (Register reg qn K) t).type = K.toString) ∧
    (kind t = RKind.structK →
      (inspect (Register reg qn K) t).type = "" ∧
      (inspect (Register reg qn K) t).ref = makeRef (makeName t)) := by
  subst hqn
  have hG : Get (Register reg (typeString t) K) (typeString t) = K :=
    Get_Register_self reg (typeString t) K
  have hP : Parse (Register reg (typeString t) K) t = K := by
    rw [Parse_override _ _ hp (by rw [hG]; exact hK), hG]
  constructor
  · intro hs
    cases t <;> first
      | exact absurd rfl hp
      | exact absurd rfl hs
      | simp [inspect, Property.type, hP]
  · intro hs
    cases t <;> first
      | exact ⟨rfl, rfl⟩
      | simp [kind] at hs

/-- C1 witness: the amended statement evaluated at a registered non-record
type (`int64` registered as string) and at the registered record type of
the counterexample scenario. -/
theorem C1_override_amended_witness :
    (inspect (Register ptMapping "int64" ParameterType.string) GoType.int64).type
      = ParameterType.string.toString ∧
    (inspect (Register ptMapping "pkg.SpecialType" ParameterType.integer)
        (GoType.struct "pkg.SpecialType")).type = "" ∧
    (inspect (Register ptMapping "pkg.SpecialType" ParameterType.integer)
        (GoType.struct "pkg.SpecialType")).ref
      = makeRef (makeName (GoType.struct "pkg.SpecialType")) :=
  ⟨(C1_override_amended ptMapping "int64" ParameterType.string GoType.int64
      (by decide) (by decide) rfl).1 (by decide),
   (C1_override_amended ptMapping "pkg.SpecialType" ParameterType.integer
      (GoType.struct "pkg.SpecialType") (by decide) (by decide) rfl).2 rfl⟩

/-! ## String lemmas for the naming annotation -/

theorem goSplitCommaAux_no_comma (l acc : List Char) (h : ∀ c ∈ l, c ≠ ',') :
    goSplitCommaAux l acc = [String.mk (acc.reverse ++ l)] := by
  induction l generalizing acc with
  | nil => simp [goSplitCommaAux]
  | cons c cs ih =>
    have hc : c ≠ ',' := h c (List.mem_cons_self _ _)
    simp only [goSplitCommaAux, if_neg hc]
    rw [ih (c :: acc) (fun d hd => h d (List.mem_cons_of_mem _ hd))]
    simp

theorem firstSeg_no_comma {s : String} (h : ∀ c ∈ s.data, c ≠ ',') : firstSeg s = s := by
  unfold firstSeg goSplitComma
  rw [goSplitCommaAux_no_comma s.data [] h]
  cases s
  simp

theorem firstSeg_data_no_comma (s : String) : ∀ c ∈ (firstSeg s).data, c ≠ ',' := by
  unfold firstSeg goSplitComma
  generalize s.data = l
  suffices hh : ∀ (l acc : List Char), (∀ c ∈ acc, c ≠ ',') →
      ∀ c ∈ ((goSplitCommaAux l acc).headD "").data, c ≠ ',' by
    exact hh l [] (by simp)
  intro l
  induction l with
  | nil =>
    intro acc hacc c hc
    simp only [goSplitCommaAux, List.headD_cons] at hc
    exact hacc c (List.mem_reverse.1 hc)
  | cons c0 cs ih =>
    intro acc hacc c hc
    simp only [goSplitCommaAux] at hc
    by_cases hc0 : c0 = ','
    · rw [if_pos hc0] at hc
      simp only [List.headD_cons] at hc
      exact hacc c (List.mem_reverse.1 hc)
    · rw [if_neg hc0] at hc
      exact ih (c0 :: acc) (by
        intro d hd
        rcases List.mem_cons.1 hd with rfl | hd
        · exact hc0
        · exact hacc d hd) c hc

theorem firstSeg_idem (s : String) : firstSeg (firstSeg s) = firstSeg s :=
  firstSeg_no_comma (firstSeg_data_no_comma s)

theorem skipField_false_ne_dash {f : StructField} (h : skipField f = false) : f.name ≠ "-" := by
  intro heq
  have h2 : skipField f = true := by
    unfold skipField
    rw [heq]
    decide
  rw [h2] at h
  cases h

/-! ## Claim C6: the naming-annotation cases -/

theorem buildProperty_struct_succ (reg : Registry) (env : Env) (bf : Nat) (n : String) :
    buildProperty reg env (bf + 1) (GoType.struct n)
      = buildPropFields reg env (buildProperty reg env bf) (envFields env n) [] [] := rfl

theorem buildPropFields_single (reg : Registry) (env : Env)
    (recurse : GoType → Option (List (String × Property) × List String))
    (f : StructField) (hsk : skipField f = false) (han : f.anonymous = false) :
    buildPropFields reg env recurse [f] [] []
      = if fieldEntryName f = "-" then some ([], [])
        else some ([(fieldEntryName f, fieldProp reg f)],
          if tagHas f.tags "required" then [fieldEntryName f] else []) := by
  simp only [buildPropFields, hsk, han, Bool.false_eq_true, if_false]
  by_cases hd : fieldEntryName f = "-"
  · simp [hd, buildPropFields]
  · simp [hd, buildPropFields, alInsert]

/-- C6.  For an exported, non-embedded record field (whose declared name,
being a host-language identifier, contains no comma): an absent/empty or
comma-headed naming annotation exposes the field under its own declared
name; an annotation whose value is exactly `-` omits the field (and its
required marker) entirely; any other annotation exposes the field under
the annotation's first comma-separated segment. -/
theorem C6_naming_cases (reg : Registry) (env : Env) (bf : Nat) (n : String)
    (f : StructField) (hf : envFields env n = [f]) (hsk : skipField f = false)
    (han : f.anonymous = false) (hnc : ∀ c ∈ f.name.data, c ≠ ',') :
    ((goTrim (tagGet f.tags "json") = "" ∨ goStartsComma (goTrim (tagGet f.tags "json")) = true) →
      (buildProperty reg env (bf + 1) (GoType.struct n)).map (fun r => alKeys r.1)
        = some [f.name]) ∧
    (goTrim (tagGet f.tags "json") = "-" →
      buildProperty reg env (bf + 1) (GoType.struct n) = some ([], [])) ∧
    ((goTrim (tagGet f.tags "json") ≠ "" ∧ goStartsComma (goTrim (tagGet f.tags "json")) = false ∧
      firstSeg (goTrim (tagGet f.tags "json")) ≠ "-") →
      (buildProperty reg env (bf + 1) (GoType.struct n)).map (fun r => alKeys r.1)
        = some [firstSeg (goTrim (tagGet f.tags "json"))]) := by
  have hbp := buildProperty_struct_succ reg env bf n
  rw [hf] at hbp
  rw [hbp, buildPropFields_single reg env _ f hsk han]
  have hshape : fieldEntryName f
      = firstSeg (if (decide (goTrim (tagGet f.tags "json") = "")
          || goStartsComma (goTrim (tagGet f.tags "json"))) = true
        then f.name else firstSeg (goTrim (tagGet f.tags "json"))) := rfl
  refine ⟨?_, ?_, ?_⟩
  · intro hA
    have hc : (decide (goTrim (tagGet f.tags "json") = "")
        || goStartsComma (goTrim (tagGet f.tags "json"))) = true := by
      rcases hA with h0 | h0 <;> simp [h0]
    have hname : fieldEntryName f = f.name := by
      rw [hshape, hc, if_pos rfl]
      exact firstSeg_no_comma hnc
    rw [hname, if_neg (skipField_false_ne_dash hsk)]
    simp [alKeys]
  · intro hB
    have hname : fieldEntryName f = "-" := by
      rw [hshape, hB]
      rw [if_neg (by decide)]
      decide
    rw [if_pos hname]
  · rintro ⟨h1, h2, h3⟩
    have hc : (decide (goTrim (tagGet f.tags "json") = "")
        || goStartsComma (goTrim (tagGet f.tags "json"))) = false := by
      simp [h1, h2]
    have hname : fieldEntryName f = firstSeg (goTrim (tagGet f.tags "json")) := by
      rw [hshape, hc]
      simp only [Bool.false_eq_true, if_false]
      exact firstSeg_idem _
    rw [hname, if_neg h3]
    simp [alKeys]

/-- C6 witness: the three cases evaluated concretely; in particular a
field annotated `json:"alias,omitempty"` is exposed as `alias`. -/
theorem C6_naming_cases_witness :
    (buildProperty ptMapping c6env 1 (GoType.struct "T")).map (fun r => alKeys r.1)
      = some [firstSeg (goTrim (tagGet [("json", "alias,omitempty")] "json"))] ∧
    firstSeg (goTrim (tagGet [("json", "alias,omitempty")] "json")) = "alias" :=
  ⟨(C6_naming_cases ptMapping c6env 0 "T"
      ⟨"Name", false, [("json", "alias,omitempty")], GoType.string⟩
      rfl rfl rfl (by decide)).2.2 (by refine ⟨by decide, by decide, by decide⟩), by decide⟩

/-! ## Claims C7, C9, C10: Field Enumerator lemmas -/

theorem alKeys_spliceProps_sub (ps : List (String × Property)) :
    ∀ (props : List (String × Property)) (x : String),
      x ∈ alKeys props → x ∈ alKeys (spliceProps props ps) := by
  induction ps with
  | nil => intro props x hx; exact hx
  | cons kv rest ih =>
    intro props x hx
    have h1 : x ∈ alKeys (alInsert props kv.1 kv.2) := alKeys_alInsert_sub props kv.1 kv.2 x hx
    exact ih (alInsert props kv.1 kv.2) x h1

theorem alKeys_spliceProps_nodup (ps : List (String × Property)) :
    ∀ (props : List (String × Property)), (alKeys props).Nodup →
      (alKeys (spliceProps props ps)).Nodup := by
  induction ps with
  | nil => intro props h; exact h
  | cons kv rest ih =>
    intro props h
    exact ih (alInsert props kv.1 kv.2) (alKeys_alInsert_nodup kv.1 kv.2 h)

theorem spliceProps_of_disjoint (ps : List (String × Property)) :
    ∀ (props : List (String × Property)), (alKeys ps).Nodup →
      (∀ k ∈ alKeys ps, k ∉ alKeys props) → spliceProps props ps = props ++ ps := by
  induction ps with
  | nil => intro props _ _; simp [spliceProps]
  | cons kv rest ih =>
    intro props hnd hdis
    obtain ⟨k, v⟩ := kv
    simp only [alKeys, List.map_cons, List.nodup_cons] at hnd
    have hk : k ∉ alKeys props := hdis k (List.mem_cons_self _ _)
    have hstep : spliceProps props ((k, v) :: rest) = spliceProps (props ++ [(k, v)]) rest := by
      simp only [spliceProps, List.foldl_cons]
      rw [alInsert_of_notMem v hk]
    rw [hstep, ih (props ++ [(k, v)]) hnd.2]
    · simp
    · intro x hx
      rw [alKeys_append]
      simp only [List.mem_append]
      push_neg
      constructor
      · exact hdis x (List.mem_cons_of_mem _ hx)
      · simp only [alKeys, List.map_cons, List.map_nil, List.mem_singleton]
        rintro rfl
        exact hnd.1 hx

theorem bpf_keys_nodup (reg : Registry) (env : Env)
    (recurse : GoType → Option (List (String × Property) × List String)) :
    ∀ (fs : List StructField) (props : List (String × Property)) (req : List String)
      (ps : List (String × Property)) (rs : List String),
      (alKeys props).Nodup →
      buildPropFields reg env recurse fs props req = some (ps, rs) → (alKeys ps).Nodup := by
  intro fs
  induction fs with
  | nil =>
    intro props req ps rs hnd h
    simp only [buildPropFields] at h
    cases h
    exact hnd
  | cons f rest ih =>
    intro props req ps rs hnd h
    simp only [buildPropFields] at h
    split at h
    · exact ih props req ps rs hnd h
    · split at h
      · split at h
        · cases h
        · rename_i ps' rs' hrec
          exact ih _ _ ps rs (alKeys_spliceProps_nodup ps' props hnd) h
      · split at h
        · exact ih props req ps rs hnd h
        · exact ih _ _ ps rs (alKeys_alInsert_nodup _ _ hnd) h

theorem buildProperty_keys_nodup (reg : Registry) (env : Env) (fuel : Nat) (t : GoType)
    (ps : List (String × Property)) (rs : List String)
    (h : buildProperty reg env fuel t = some (ps, rs)) : (alKeys ps).Nodup := by
  cases fuel with
  | zero => cases h
  | succ bf =>
    cases t <;> try cases h
    case struct n =>
      exact bpf_keys_nodup reg env (buildProperty reg env bf) (envFields env n) [] [] ps rs
        (by simp [alKeys]) h

/-- C7.  For a record with an exported embedded (anonymous) substructure
field, the Field Enumerator splices the substructure's field mapping into
the parent's mapping and discards the substructure's required list
entirely: whatever `(ps, rs)` the recursive enumeration returns, the
parent enumerates to exactly `(ps, [])`. -/
theorem C7_embedded_splice (reg : Registry) (env : Env) (bf : Nat) (n : String)
    (f : StructField) (ps : List (String × Property)) (rs : List String)
    (hf : envFields env n = [f]) (hsk : skipField f = false) (han : f.anonymous = true)
    (hrec : buildProperty reg env bf f.typ = some (ps, rs)) :
    buildProperty reg env (bf + 1) (GoType.struct n) = some (ps, []) := by
  rw [buildProperty_struct_succ, hf]
  simp only [buildPropFields, hsk, Bool.false_eq_true, if_false, han, if_true, hrec]
  have hsp : spliceProps [] ps = ps := by
    have hnd := buildProperty_keys_nodup reg env bf f.typ ps rs hrec
    rw [spliceProps_of_disjoint ps [] hnd (by intro k _; simp [alKeys])]
    simp
  simp [buildPropFields, hsp]

/-- C7 witness: embedding `Inner` (with a required field `Name`) into
`Outer7` splices `Inner`'s one-field mapping and produces an empty
required list even though `Inner`'s own enumeration returns `["Name"]`. -/
theorem C7_embedded_splice_witness :
    buildProperty ptMapping c7env 2 (GoType.struct "Outer7")
      = some ((buildProperty ptMapping c7env 1 (GoType.struct "Inner")).getD ([], []) |>.1, []) ∧
    ((buildProperty ptMapping c7env 1 (GoType.struct "Inner")).getD ([], []) |>.2) = ["Name"] :=
  ⟨C7_embedded_splice ptMapping c7env 1 "Outer7"
      ⟨"Inner", true, [], GoType.struct "Inner"⟩ _ _ rfl rfl rfl rfl, rfl⟩

theorem bpf_req_sub_keys (reg : Registry) (env : Env)
    (recurse : GoType → Option (List (String × Property) × List String)) :
    ∀ (fs : List StructField) (props : List (String × Property)) (req : List String)
      (ps : List (String × Property)) (rs : List String),
      (∀ x ∈ req, x ∈ alKeys props) →
      buildPropFields reg env recurse fs props req = some (ps, rs) →
      ∀ x ∈ rs, x ∈ alKeys ps := by
  intro fs
  induction fs with
  | nil =>
    intro props req ps rs hinv h
    simp only [buildPropFields] at h
    cases h
    exact hinv
  | cons f rest ih =>
    intro props req ps rs hinv h
    simp only [buildPropFields] at h
    split at h
    · exact ih props req ps rs hinv h
    · split at h
      · split at h
        · cases h
        · rename_i ps' rs' hrec
          refine ih _ _ ps rs (fun x hx => ?_) h
          exact alKeys_spliceProps_sub ps' props x (hinv x hx)
      · split at h
        · exact ih props req ps rs hinv h
        · refine ih _ _ ps rs (fun x hx => ?_) h
          split at hx
          · rcases List.mem_append.1 hx with hx | hx
            · exact alKeys_alInsert_sub _ _ _ x (hinv x hx)
            · rw [List.mem_singleton.1 hx]
              exact mem_alKeys_alInsert_self _ _ _
          · exact alKeys_alInsert_sub _ _ _ x (hinv x hx)

/-- C9.  Whenever the Field Enumerator succeeds, every name in the
returned required list is a key of the returned field mapping: required
markers are only recorded on the same step that stores the field's
property under that very name, and names, once stored, are never
removed. -/
theorem C9_required_sub_keys (reg : Registry) (env : Env) (bf : Nat) (t : GoType)
    (ps : List (String × Property)) (rs : List String)
    (h : buildProperty reg env bf t = some (ps, rs)) : ∀ x ∈ rs, x ∈ alKeys ps := by
  cases bf with
  | zero => cases h
  | succ bf =>
    cases t <;> try cases h
    case struct n =>
      exact bpf_req_sub_keys reg env (buildProperty reg env bf) (envFields env n) [] [] ps rs
        (by simp) h

/-- C9 witness: the invariant evaluated on the `Pet` record whose `Tags`
field carries a required marker. -/
theorem C9_required_sub_keys_witness :
    "Tags" ∈ alKeys ((buildProperty ptMapping c9env 1 (GoType.struct "Pet")).getD ([], [])).1 :=
  C9_required_sub_keys ptMapping c9env 1 (GoType.struct "Pet")
    ((buildProperty ptMapping c9env 1 (GoType.struct "Pet")).getD ([], [])).1
    ((buildProperty ptMapping c9env 1 (GoType.struct "Pet")).getD ([], [])).2
    rfl "Tags" (by decide)

theorem buildProperty_ptr_none (reg : Registry) (env : Env) (fuel : Nat) (u : GoType) :
    buildProperty reg env fuel (GoType.ptr u) = none := by
  cases fuel <;> rfl

theorem bpf_anon_ptr_none (reg : Registry) (env : Env) (bf : Nat)
    (f : StructField) (u : GoType)
    (hsk : skipField f = false) (han : f.anonymous = true) (hty : f.typ = GoType.ptr u) :
    ∀ (fs : List StructField) (props : List (String × Property)) (req : List String),
      f ∈ fs →
      buildPropFields reg env (buildProperty reg env bf) fs props req = none := by
  intro fs
  induction fs with
  | nil => intro props req hmem; cases hmem
  | cons f0 rest ih =>
    intro props req hmem
    rcases List.mem_cons.1 hmem with rfl | hmem
    · simp only [buildPropFields, hsk, Bool.false_eq_true, if_false, han, if_true, hty,
        buildProperty_ptr_none]
    · simp only [buildPropFields]
      split
      · exact ih props req hmem
      · split
        · split
          · rfl
          · exact ih _ _ hmem
        · split
          · exact ih props req hmem
          · exact ih _ _ hmem

/-- C10.  The Field Enumerator is not total: a record with an exported
anonymous field of pointer-to-record type makes `buildProperty` recurse on
the pointer descriptor itself, and enumerating a pointer-kind descriptor's
fields is the `NumField` failure branch (a runtime panic in the host
reflection model, `none` here), so enumeration returns no result at any
recursion fuel. -/
theorem C10_embedded_pointer_panics (reg : Registry) (env : Env) (bf : Nat) (n : String)
    (f : StructField) (u : GoType) (hmem : f ∈ envFields env n)
    (hsk : skipField f = false) (han : f.anonymous = true) (hty : f.typ = GoType.ptr u) :
    buildProperty reg env bf (GoType.struct n) = none := by
  cases bf with
  | zero => rfl
  | succ bf =>
    rw [buildProperty_struct_succ]
    exact bpf_anon_ptr_none reg env bf f u hsk han hty (envFields env n) [] [] hmem

/-- C10 witness: the concrete record `P` embedding `*Q` enumerates to no
result. -/
theorem C10_embedded_pointer_panics_witness :
    buildProperty ptMapping c10env 5 (GoType.struct "P") = none :=
  C10_embedded_pointer_panics ptMapping c10env 5 "P"
    ⟨"Q", true, [], GoType.ptr (GoType.struct "Q")⟩ (GoType.struct "Q")
    (by decide) (by decide) rfl rfl

/-! ## Chain-signature well-formedness -/

theorem kind_structK_iff (t : GoType) : kind t = RKind.structK ↔ ∃ n, t = GoType.struct n := by
  cases t <;> simp [kind]

theorem makeName_struct (n : String) : makeName (GoType.struct n) = n := rfl

theorem defineObject_struct_eq (reg : Registry) (env : Env) (bf : Nat) (n : String) :
    defineObject reg env bf (GoType.struct n)
      = (buildProperty reg env bf (GoType.struct n)).map fun pr =>
          ⟨n, ParameterType.object.toString, "", pr.2, pr.1, none, none⟩ := rfl

theorem defineObject_struct_name (reg : Registry) (env : Env) (bf : Nat) (n : String)
    (o : Object) (h : defineObject reg env bf (GoType.struct n) = some o) : o.name = n := by
  rw [defineObject_struct_eq] at h
  cases hb : buildProperty reg env bf (GoType.struct n) with
  | none => rw [hb] at h; cases h
  | some pr =>
    rw [hb] at h
    cases h
    rfl

theorem chainSig_mk (g : GoType) (t f r : String) (ap it : Option Property)
    (e d : String) (en : List String) :
    chainSig (Property.mk g t f r ap it e d en)
      = (r, g) :: (match ap with | none => [] | some q => chainSig q) := by
  cases ap <;> rfl

theorem chainSig_setExample (p : Property) (v : String) :
    chainSig (p.setExample v) = chainSig p := by
  cases p with
  | mk g t f r ap it e d en => cases ap <;> rfl

theorem chainSig_setDescription (p : Property) (v : String) :
    chainSig (p.setDescription v) = chainSig p := by
  cases p with
  | mk g t f r ap it e d en => cases ap <;> rfl

theorem chainSig_setEnum (p : Property) (v : List String) :
    chainSig (p.setEnum v) = chainSig p := by
  cases p with
  | mk g t f r ap it e d en => cases ap <;> rfl

theorem chainSig_applyOverlays (p : Property) (tags : List (String × String)) :
    chainSig (applyOverlays p tags) = chainSig p := by
  unfold applyOverlays
  split_ifs <;>
    simp only [chainSig_setExample, chainSig_setDescription, chainSig_setEnum]

theorem collectNames_self (t : GoType) (m : String) (h : t = GoType.struct m) :
    m ∈ collectNames t := by
  subst h
  simp [collectNames]

theorem inspect_chainSig_ok (reg : Registry) (t : GoType) :
    ∀ rg ∈ chainSig (inspect reg t),
      (rg.1 ≠ "" → ∃ m, rg.2 = GoType.struct m ∧ rg.1 = makeRef m) ∧
      (∀ m, rg.2 = GoType.struct m → m ∈ collectNames t) := by
  induction t with
  | ptr e ih => exact ih
  | struct n =>
    intro rg hrg
    simp only [inspect, chainSig_mk, List.mem_singleton] at hrg
    subst hrg
    exact ⟨fun _ => ⟨n, rfl, rfl⟩, by rintro m ⟨rfl⟩; simp [collectNames]⟩
  | map e ih =>
    intro rg hrg
    simp only [inspect, chainSig_mk, List.mem_cons] at hrg
    rcases hrg with rfl | hrg
    · exact ⟨fun h => absurd rfl h, by rintro m ⟨⟩⟩
    · exact ih rg hrg
  | slice e ih =>
    intro rg hrg
    simp only [inspect, chainSig_mk, List.mem_singleton] at hrg
    subst hrg
    exact ⟨fun h => absurd rfl h, fun m hm => collectNames_self e m hm⟩
  | array e ih =>
    intro rg hrg
    simp only [inspect, chainSig_mk, List.mem_singleton] at hrg
    subst hrg
    exact ⟨fun h => absurd rfl h, fun m hm => collectNames_self e m hm⟩
  | _ =>
    intro rg hrg
    simp only [inspect, chainSig_mk, List.mem_singleton] at hrg
    subst hrg
    exact ⟨fun h => absurd rfl h, by rintro m ⟨⟩⟩

theorem fieldProp_SigOK (reg : Registry) (env : Env) (f : StructField)
    (hsub : ∀ x ∈ collectNames f.typ, x ∈ envNames env) : SigOK env (fieldProp reg f) := by
  intro rg hrg
  unfold fieldProp at hrg
  rw [chainSig_applyOverlays] at hrg
  split at hrg
  · simp only [stringCoerceProp, chainSig_mk, List.mem_singleton] at hrg
    subst hrg
    exact ⟨fun h => absurd rfl h, fun m hm => hsub m (collectNames_self f.typ m hm)⟩
  · have h := inspect_chainSig_ok reg f.typ rg hrg
    exact ⟨h.1, fun m hm => hsub m (h.2 m hm)⟩

theorem envFields_collect_sub (env : Env) (n : String) (f : StructField)
    (hf : f ∈ envFields env n) : ∀ x ∈ collectNames f.typ, x ∈ envNames env := by
  unfold envFields at hf
  cases hl : alLookup env.structs n with
  | none => rw [hl] at hf; cases hf
  | some fs =>
    rw [hl] at hf
    intro x hx
    exact List.mem_flatMap.2 ⟨(n, fs), alLookup_mem hl, List.mem_flatMap.2 ⟨f, hf, hx⟩⟩

theorem mem_spliceProps (ps : List (String × Property)) :
    ∀ (props : List (String × Property)) (kv : String × Property),
      kv ∈ spliceProps props ps → kv ∈ props ∨ kv ∈ ps := by
  induction ps with
  | nil => intro props kv h; exact Or.inl h
  | cons hd rest ih =>
    intro props kv h
    have hstep : spliceProps props (hd :: rest) = spliceProps (alInsert props hd.1 hd.2) rest := by
      simp [spliceProps]
    rw [hstep] at h
    rcases ih _ kv h with h1 | h1
    · rcases mem_alInsert h1 with h2 | h2
      · exact Or.inl h2
      · right
        rw [h2]
        exact List.mem_cons_self _ _
    · exact Or.inr (List.mem_cons_of_mem _ h1)

theorem bpf_props_SigOK (reg : Registry) (env : Env)
    (recurse : GoType → Option (List (String × Property) × List String))
    (hrec : ∀ t ps rs, recurse t = some (ps, rs) → ∀ kv ∈ ps, SigOK env kv.2) :
    ∀ (fs : List StructField), (∀ f ∈ fs, ∀ x ∈ collectNames f.typ, x ∈ envNames env) →
    ∀ (props : List (String × Property)) (req : List String)
      (ps : List (String × Property)) (rs : List String),
      (∀ kv ∈ props, SigOK env kv.2) →
      buildPropFields reg env recurse fs props req = some (ps, rs) →
      ∀ kv ∈ ps, SigOK env kv.2 := by
  intro fs
  induction fs with
  | nil =>
    intro _ props req ps rs hinv h
    simp only [buildPropFields] at h
    cases h
    exact hinv
  | cons f rest ih =>
    intro hfs props req ps rs hinv h
    have hfs' : ∀ f' ∈ rest, ∀ x ∈ collectNames f'.typ, x ∈ envNames env :=
      fun f' hf' => hfs f' (List.mem_cons_of_mem _ hf')
    simp only [buildPropFields] at h
    split at h
    · exact ih hfs' props req ps rs hinv h
    · split at h
      · split at h
        · cases h
        · rename_i ps' rs' hr
          refine ih hfs' _ _ ps rs (fun kv hkv => ?_) h
          rcases mem_spliceProps ps' props kv hkv with h1 | h1
          · exact hinv kv h1
          · exact hrec f.typ ps' rs' hr kv h1
      · split at h
        · exact ih hfs' props req ps rs hinv h
        · refine ih hfs' _ _ ps rs (fun kv hkv => ?_) h
          rcases mem_alInsert hkv with h1 | h1
          · exact hinv kv h1
          · rw [h1]
            exact fieldProp_SigOK reg env f (hfs f (List.mem_cons_self _ _))

theorem buildProperty_props_SigOK (reg : Registry) (env : Env) :
    ∀ (fuel : Nat) (t : GoType) (ps : List (String × Property)) (rs : List String),
      buildProperty reg env fuel t = some (ps, rs) → ∀ kv ∈ ps, SigOK env kv.2 := by
  intro fuel
  induction fuel with
  | zero => intro t ps rs h; cases h
  | succ bf ih =>
    intro t ps rs h
    cases t <;> try cases h
    case struct n =>
      exact bpf_props_SigOK reg env (buildProperty reg env bf) ih (envFields env n)
        (fun f hf => envFields_collect_sub env n f hf) [] [] ps rs (by simp) h

theorem defineObject_ObjOK (reg : Registry) (env : Env) (bf : Nat) :
    ∀ (t : GoType) (o : Object), defineObject reg env bf t = some o → ObjOK env o := by
  intro t
  induction t with
  | ptr e ih => exact ih
  | struct n =>
    intro o h
    rw [defineObject_struct_eq] at h
    cases hb : buildProperty reg env bf (GoType.struct n) with
    | none => rw [hb] at h; cases h
    | some pr =>
      rw [hb] at h
      cases h
      intro fp hfp
      exact buildProperty_props_SigOK reg env bf (GoType.struct n) pr.1 pr.2
        (by rw [hb]) fp hfp
  | slice e ih =>
    intro o h
    cases h
    intro fp hfp
    cases hfp
  | array e ih =>
    intro o h
    cases h
    intro fp hfp
    cases hfp
  | map e ih =>
    intro o h
    cases h
    intro fp hfp
    cases hfp
  | _ =>
    intro o h
    cases h
    intro fp hfp
    cases hfp

theorem propsChainTypes_struct_names (env : Env) (o : Object) (hobj : ObjOK env o) :
    ∀ t ∈ propsChainTypes o, ∀ m, t = GoType.struct m → m ∈ envNames env := by
  intro t ht m hm
  unfold propsChainTypes at ht
  rcases List.mem_flatMap.1 ht with ⟨p, hp, htp⟩
  rcases List.mem_map.1 hp with ⟨fp, hfp, rfl⟩
  rcases List.mem_map.1 htp with ⟨q, hq, rfl⟩
  have hsig := hobj fp hfp (q.ref, q.goType)
    (List.mem_map.2 ⟨q, hq, rfl⟩)
  exact hsig.2 m hm

theorem mem_propsChainTypes (o : Object) (fp : String × Property) (q : Property)
    (hfp : fp ∈ o.properties) (hq : q ∈ chainProps fp.2) :
    q.goType ∈ propsChainTypes o := by
  unfold propsChainTypes
  exact List.mem_flatMap.2 ⟨fp.2, List.mem_map.2 ⟨fp, hfp, rfl⟩,
    List.mem_map.2 ⟨q, hq, rfl⟩⟩

/-! ## Closure-pass step lemmas -/

theorem stepT_some_eq (reg : Registry) (env : Env) (bf : Nat)
    (m : List (String × Object)) (d : Bool) (t : GoType) :
    stepT reg env bf (some (m, d)) t
      = if kind t = RKind.structK then
          if makeName t ∈ alKeys m then some (m, d)
          else
            match defineObject reg env bf t with
            | none => none
            | some child => some (m ++ [(child.name, child)], true)
        else some (m, d) := rfl

theorem stepT_cases (reg : Registry) (env : Env) (bf : Nat)
    (m : List (String × Object)) (d : Bool) (t : GoType) (res : List (String × Object) × Bool)
    (h : stepT reg env bf (some (m, d)) t = some res) :
    (res = (m, d) ∧ (kind t = RKind.structK → makeName t ∈ alKeys m)) ∨
    (kind t = RKind.structK ∧ makeName t ∉ alKeys m ∧
      ∃ child, defineObject reg env bf t = some child ∧ child.name = makeName t ∧
        res = (m ++ [(child.name, child)], true)) := by
  rw [stepT_some_eq] at h
  by_cases hk : kind t = RKind.structK
  · rw [if_pos hk] at h
    by_cases hm : makeName t ∈ alKeys m
    · rw [if_pos hm] at h
      cases h
      exact Or.inl ⟨rfl, fun _ => hm⟩
    · rw [if_neg hm] at h
      cases hdo : defineObject reg env bf t with
      | none => rw [hdo] at h; cases h
      | some child =>
        rw [hdo] at h
        cases h
        obtain ⟨n, rfl⟩ := (kind_structK_iff t).1 hk
        exact Or.inr ⟨hk, hm, child, rfl,
          defineObject_struct_name reg env bf n child hdo, rfl⟩
  · rw [if_neg hk] at h
    cases h
    exact Or.inl ⟨rfl, fun habs => absurd habs hk⟩

theorem stepT_isSome (reg : Registry) (env : Env) (bf : Nat)
    (m : List (String × Object)) (d : Bool) (t : GoType)
    (hdef : kind t = RKind.structK → (defineObject reg env bf t).isSome = true) :
    ∃ res, stepT reg env bf (some (m, d)) t = some res := by
  rw [stepT_some_eq]
  by_cases hk : kind t = RKind.structK
  · rw [if_pos hk]
    by_cases hm : makeName t ∈ alKeys m
    · rw [if_pos hm]
      exact ⟨(m, d), rfl⟩
    · rw [if_neg hm]
      cases hdo : defineObject reg env bf t with
      | none => rw [hdo] at hdef; cases hdef hk
      | some child => exact ⟨(m ++ [(child.name, child)], true), rfl⟩
  · rw [if_neg hk]
    exact ⟨(m, d), rfl⟩

theorem foldT_none (reg : Registry) (env : Env) (bf : Nat) (ts : List GoType) :
    ts.foldl (stepT reg env bf) none = none := by
  induction ts with
  | nil => rfl
  | cons t ts ih => exact ih

theorem foldT_isPrefixOf (reg : Registry) (env : Env) (bf : Nat) :
    ∀ (ts : List GoType) (m : List (String × Object)) (d : Bool)
      (m' : List (String × Object)) (d' : Bool),
      ts.foldl (stepT reg env bf) (some (m, d)) = some (m', d') → m <+: m' := by
  intro ts
  induction ts with
  | nil =>
    intro m d m' d' h
    cases h
    exact List.prefix_refl m
  | cons t ts ih =>
    intro m d m' d' h
    simp only [List.foldl_cons] at h
    cases hstep : stepT reg env bf (some (m, d)) t with
    | none => rw [hstep, foldT_none] at h; cases h
    | some res =>
      rw [hstep] at h
      obtain ⟨m1, d1⟩ := res
      rcases stepT_cases reg env bf m d t (m1, d1) hstep with ⟨heq, _⟩ | ⟨_, _, child, _, _, heq⟩
      · rw [heq] at h
        exact ih m d m' d' h
      · rw [heq] at h
        exact (List.prefix_append m _).trans (ih _ _ m' d' h)

theorem foldT_dirty (reg : Registry) (env : Env) (bf : Nat) :
    ∀ (ts : List GoType) (m : List (String × Object)) (m' : List (String × Object)) (d' : Bool),
      ts.foldl (stepT reg env bf) (some (m, true)) = some (m', d') → d' = true := by
  intro ts
  induction ts with
  | nil =>
    intro m m' d' h
    cases h
    rfl
  | cons t ts ih =>
    intro m m' d' h
    simp only [List.foldl_cons] at h
    cases hstep : stepT reg env bf (some (m, true)) t with
    | none => rw [hstep, foldT_none] at h; cases h
    | some res =>
      rw [hstep] at h
      obtain ⟨m1, d1⟩ := res
      rcases stepT_cases reg env bf m true t (m1, d1) hstep with ⟨heq, _⟩ | ⟨_, _, child, _, _, heq⟩
      · rw [heq] at h
        exact ih m m' d' h
      · rw [heq] at h
        exact ih _ m' d' h

theorem foldT_false (reg : Registry) (env : Env) (bf : Nat) :
    ∀ (ts : List GoType) (m : List (String × Object)) (m' : List (String × Object)),
      ts.foldl (stepT reg env bf) (some (m, false)) = some (m', false) →
      m' = m ∧ ∀ t ∈ ts, kind t = RKind.structK → makeName t ∈ alKeys m := by
  intro ts
  induction ts with
  | nil =>
    intro m m' h
    cases h
    exact ⟨rfl, by simp⟩
  | cons t ts ih =>
    intro m m' h
    simp only [List.foldl_cons] at h
    cases hstep : stepT reg env bf (some (m, false)) t with
    | none => rw [hstep, foldT_none] at h; cases h
    | some res =>
      rw [hstep] at h
      obtain ⟨m1, d1⟩ := res
      cases d1 with
      | true => exact absurd (foldT_dirty reg env bf ts m1 m' false h) (by simp)
      | false =>
        rcases stepT_cases reg env bf m false t (m1, false) hstep with
          ⟨heq, hmem⟩ | ⟨_, _, child, _, _, heq⟩
        · rw [heq] at h
          obtain ⟨h1, h2⟩ := ih m m' h
          refine ⟨h1, fun t2 ht2 hk2 => ?_⟩
          rcases List.mem_cons.1 ht2 with rfl | ht2
          · exact hmem hk2
          · exact h2 t2 ht2 hk2
        · simp at heq

theorem foldT_isSome (reg : Registry) (env : Env) (bf : Nat) :
    ∀ (ts : List GoType),
      (∀ t ∈ ts, kind t = RKind.structK → (defineObject reg env bf t).isSome = true) →
      ∀ (m : List (String × Object)) (d : Bool),
        (ts.foldl (stepT reg env bf) (some (m, d))).isSome = true := by
  intro ts
  induction ts with
  | nil => intro _ m d; rfl
  | cons t ts ih =>
    intro hdef m d
    obtain ⟨res, hres⟩ := stepT_isSome reg env bf m d t (hdef t (List.mem_cons_self _ _))
    obtain ⟨m1, d1⟩ := res
    simp only [List.foldl_cons, hres]
    exact ih (fun t2 ht2 => hdef t2 (List.mem_cons_of_mem _ ht2)) m1 d1

theorem foldT_growth (reg : Registry) (env : Env) (bf : Nat) :
    ∀ (ts : List GoType) (m : List (String × Object)) (m' : List (String × Object)),
      ts.foldl (stepT reg env bf) (some (m, false)) = some (m', true) →
      m.length < m'.length := by
  intro ts
  induction ts with
  | nil => intro m m' h; cases h
  | cons t ts ih =>
    intro m m' h
    simp only [List.foldl_cons] at h
    cases hstep : stepT reg env bf (some (m, false)) t with
    | none => rw [hstep, foldT_none] at h; cases h
    | some res =>
      rw [hstep] at h
      obtain ⟨m1, d1⟩ := res
      rcases stepT_cases reg env bf m false t (m1, d1) hstep with
        ⟨heq, _⟩ | ⟨_, _, child, _, _, heq⟩
      · rw [heq] at h
        exact ih m m' h
      · rw [heq] at h
        have h1 : (m ++ [(child.name, child)]).length ≤ m'.length :=
          (foldT_isPrefixOf reg env bf ts _ _ m' _ h).length_le
        simp only [List.length_append, List.length_cons, List.length_nil] at h1
        omega

theorem keys_append_single_nodup {m : List (String × Object)} {x : String} (v : Object)
    (hnd : (alKeys m).Nodup) (hx : x ∉ alKeys m) : (alKeys (m ++ [(x, v)])).Nodup := by
  rw [alKeys_append]
  refine List.Nodup.append hnd (List.nodup_singleton x) ?_
  intro a ha hb
  simp only [alKeys, List.map_cons, List.map_nil, List.mem_singleton] at hb
  subst hb
  exact hx ha

theorem nodup_subset_length_le (l1 l2 : List String) (h1 : l1.Nodup)
    (hsub : ∀ x ∈ l1, x ∈ l2) : l1.length ≤ l2.dedup.length := by
  have h3 : l1.toFinset.card = l1.length := List.toFinset_card_of_nodup h1
  have h4 : l2.toFinset.card = l2.dedup.length := List.card_toFinset l2
  have h5 : l1.toFinset ⊆ l2.toFinset := by
    intro a ha
    simp only [List.mem_toFinset] at *
    exact hsub a ha
  have h6 := Finset.card_le_card h5
  omega

theorem foldT_nodup (reg : Registry) (env : Env) (bf : Nat) :
    ∀ (ts : List GoType) (m : List (String × Object)) (d : Bool)
      (m' : List (String × Object)) (d' : Bool),
      (alKeys m).Nodup → ts.foldl (stepT reg env bf) (some (m, d)) = some (m', d') →
      (alKeys m').Nodup := by
  intro ts
  induction ts with
  | nil =>
    intro m d m' d' hnd h
    cases h
    exact hnd
  | cons t ts ih =>
    intro m d m' d' hnd h
    simp only [List.foldl_cons] at h
    cases hstep : stepT reg env bf (some (m, d)) t with
    | none => rw [hstep, foldT_none] at h; cases h
    | some res =>
      rw [hstep] at h
      obtain ⟨m1, d1⟩ := res
      rcases stepT_cases reg env bf m d t (m1, d1) hstep with
        ⟨heq, _⟩ | ⟨_, hm, child, _, hname, heq⟩
      · rw [heq] at h
        exact ih m d m' d' hnd h
      · rw [heq] at h
        refine ih _ _ m' d' ?_ h
        rw [hname] at *
        exact keys_append_single_nodup child hnd hm

theorem foldT_pack3 (reg : Registry) (env : Env) (bf : Nat) (root : GoType) :
    ∀ (ts : List GoType),
      (∀ t ∈ ts, ∀ x, t = GoType.struct x → x ∈ envNames env) →
      ∀ (m : List (String × Object)) (d : Bool) (m' : List (String × Object)) (d' : Bool),
        GraphOK env m → KAllowed reg env bf root m →
        ts.foldl (stepT reg env bf) (some (m, d)) = some (m', d') →
        GraphOK env m' ∧ KAllowed reg env bf root m' := by
  intro ts
  induction ts with
  | nil =>
    intro _ m d m' d' hG hK h
    cases h
    exact ⟨hG, hK⟩
  | cons t ts ih =>
    intro hts m d m' d' hG hK h
    have hts' : ∀ t2 ∈ ts, ∀ x, t2 = GoType.struct x → x ∈ envNames env :=
      fun t2 ht2 => hts t2 (List.mem_cons_of_mem _ ht2)
    simp only [List.foldl_cons] at h
    cases hstep : stepT reg env bf (some (m, d)) t with
    | none => rw [hstep, foldT_none] at h; cases h
    | some res =>
      rw [hstep] at h
      obtain ⟨m1, d1⟩ := res
      rcases stepT_cases reg env bf m d t (m1, d1) hstep with
        ⟨heq, _⟩ | ⟨hk, hm, child, hdo, hname, heq⟩
      · rw [heq] at h
        exact ih hts' m d m' d' hG hK h
      · rw [heq] at h
        obtain ⟨x, rfl⟩ := (kind_structK_iff t).1 hk
        refine ih hts' _ _ m' d' ?_ ?_ h
        · intro kv hkv
          rcases List.mem_append.1 hkv with h1 | h1
          · exact hG kv h1
          · rw [List.mem_singleton.1 h1]
            exact defineObject_ObjOK reg env bf _ child hdo
        · intro k hkmem
          rw [alKeys_append] at hkmem
          rcases List.mem_append.1 hkmem with h1 | h1
          · exact hK k h1
          · simp only [alKeys, List.map_cons, List.map_nil, List.mem_singleton] at h1
            subst h1
            rw [hname, makeName_struct]
            unfold allowedNames
            exact List.mem_append_right _ (hts _ (List.mem_cons_self _ _) x rfl)

theorem foldT_pack8 (reg : Registry) (env : Env) (bf : Nat) (rootObj : Object) :
    ∀ (ts : List GoType),
      (∀ t ∈ ts, ∃ k o, Reach reg env bf rootObj k ∧ objAt reg env bf rootObj k = some o ∧
        t ∈ propsChainTypes o) →
      ∀ (m : List (String × Object)) (d : Bool) (m' : List (String × Object)) (d' : Bool),
        rootObj.name ∈ alKeys m → VInv reg env bf rootObj m → SInv reg env bf rootObj m →
        ts.foldl (stepT reg env bf) (some (m, d)) = some (m', d') →
        rootObj.name ∈ alKeys m' ∧ VInv reg env bf rootObj m' ∧ SInv reg env bf rootObj m' := by
  intro ts
  induction ts with
  | nil =>
    intro _ m d m' d' hroot hV hS h
    cases h
    exact ⟨hroot, hV, hS⟩
  | cons t ts ih =>
    intro hts m d m' d' hroot hV hS h
    have hts' : ∀ t2 ∈ ts, ∃ k o, Reach reg env bf rootObj k ∧
        objAt reg env bf rootObj k = some o ∧ t2 ∈ propsChainTypes o :=
      fun t2 ht2 => hts t2 (List.mem_cons_of_mem _ ht2)
    simp only [List.foldl_cons] at h
    cases hstep : stepT reg env bf (some (m, d)) t with
    | none => rw [hstep, foldT_none] at h; cases h
    | some res =>
      rw [hstep] at h
      obtain ⟨m1, d1⟩ := res
      rcases stepT_cases reg env bf m d t (m1, d1) hstep with
        ⟨heq, _⟩ | ⟨hk, hm, child, hdo, hname, heq⟩
      · rw [heq] at h
        exact ih hts' m d m' d' hroot hV hS h
      · rw [heq] at h
        obtain ⟨k0, o0, hreach0, ho0, hto0⟩ := hts t (List.mem_cons_self _ _)
        have hreachT : Reach reg env bf rootObj (makeName t) :=
          Reach.step k0 o0 t hreach0 ho0 hto0 hk
        have hne : makeName t ≠ rootObj.name := by
          intro habs
          rw [← habs] at hroot
          exact hm hroot
        refine ih hts' _ _ m' d' ?_ ?_ ?_ h
        · rw [alKeys_append]
          exact List.mem_append_left _ hroot
        · intro kv hkv
          rcases List.mem_append.1 hkv with h1 | h1
          · exact hV kv h1
          · rw [List.mem_singleton.1 h1]
            simp only
            rw [hname]
            unfold objAt
            rw [if_neg hne]
            obtain ⟨x, rfl⟩ := (kind_structK_iff t).1 hk
            rw [makeName_struct] at *
            exact hdo
        · intro k hkmem
          rw [alKeys_append] at hkmem
          rcases List.mem_append.1 hkmem with h1 | h1
          · exact hS k h1
          · simp only [alKeys, List.map_cons, List.map_nil, List.mem_singleton] at h1
            subst h1
            rw [hname]
            exact hreachT

/-! ## Pass- and loop-level lemmas -/

theorem foldl_stepObj_eq_foldT (reg : Registry) (env : Env) (bf : Nat) :
    ∀ (kvs : List (String × Object)) (acc : Option (List (String × Object) × Bool)),
      kvs.foldl (stepObj reg env bf) acc
        = (kvs.flatMap fun kv => propsChainTypes kv.2).foldl (stepT reg env bf) acc := by
  intro kvs
  induction kvs with
  | nil => intro acc; rfl
  | cons kv kvs ih =>
    intro acc
    simp only [List.foldl_cons, List.flatMap_cons, List.foldl_append]
    exact ih _

theorem passOnceOrd_eq (reg : Registry) (env : Env) (bf : Nat)
    (sched : List (String × Object) → List (String × Object)) (m : List (String × Object)) :
    passOnceOrd reg env bf sched m
      = ((sched m).flatMap fun kv => propsChainTypes kv.2).foldl
          (stepT reg env bf) (some (m, false)) :=
  foldl_stepObj_eq_foldT reg env bf (sched m) (some (m, false))

theorem pass_types_names (reg : Registry) (env : Env) (bf : Nat)
    (sched : List (String × Object) → List (String × Object)) (m : List (String × Object))
    (hsched : IsSched sched) (hG : GraphOK env m) :
    ∀ t ∈ ((sched m).flatMap fun kv => propsChainTypes kv.2),
      ∀ x, t = GoType.struct x → x ∈ envNames env := by
  intro t ht x hx
  rcases List.mem_flatMap.1 ht with ⟨kv, hkv, htkv⟩
  exact propsChainTypes_struct_names env kv.2 (hG kv (((hsched m).mem_iff).1 hkv)) t htkv x hx

theorem pass_false_eq (reg : Registry) (env : Env) (bf : Nat)
    (sched : List (String × Object) → List (String × Object))
    (m m' : List (String × Object))
    (h : passOnceOrd reg env bf sched m = some (m', false)) :
    m' = m ∧ ∀ kv ∈ sched m, ∀ t ∈ propsChainTypes kv.2,
      kind t = RKind.structK → makeName t ∈ alKeys m := by
  rw [passOnceOrd_eq] at h
  obtain ⟨h1, h2⟩ := foldT_false reg env bf _ m m' h
  exact ⟨h1, fun kv hkv t ht hk => h2 t (List.mem_flatMap.2 ⟨kv, hkv, ht⟩) hk⟩

theorem loop_fix (reg : Registry) (env : Env) (bf : Nat)
    (sched : List (String × Object) → List (String × Object)) :
    ∀ (fuel : Nat) (m g : List (String × Object)),
      defineLoopOrd reg env bf sched fuel m = some g →
      passOnceOrd reg env bf sched g = some (g, false) := by
  intro fuel
  induction fuel with
  | zero => intro m g h; cases h
  | succ fuel ih =>
    intro m g h
    simp only [defineLoopOrd] at h
    cases hp : passOnceOrd reg env bf sched m with
    | none => rw [hp] at h; cases h
    | some res =>
      rw [hp] at h
      obtain ⟨m', d⟩ := res
      cases d with
      | true =>
        simp only [if_pos rfl] at h
        exact ih m' g h
      | false =>
        simp only [Bool.false_eq_true, if_false] at h
        cases h
        obtain ⟨heq, _⟩ := pass_false_eq reg env bf sched m g hp
        rw [heq] at hp ⊢
        exact hp

theorem loop_inv (reg : Registry) (env : Env) (bf : Nat)
    (sched : List (String × Object) → List (String × Object))
    (P : List (String × Object) → Prop)
    (hstep : ∀ m res, P m → passOnceOrd reg env bf sched m = some res → P res.1) :
    ∀ (fuel : Nat) (m g : List (String × Object)),
      P m → defineLoopOrd reg env bf sched fuel m = some g → P g := by
  intro fuel
  induction fuel with
  | zero => intro m g _ h; cases h
  | succ fuel ih =>
    intro m g hP h
    simp only [defineLoopOrd] at h
    cases hp : passOnceOrd reg env bf sched m with
    | none => rw [hp] at h; cases h
    | some res =>
      rw [hp] at h
      obtain ⟨m', d⟩ := res
      cases d with
      | true =>
        simp only [if_pos rfl] at h
        exact ih m' g (hstep m (m', true) hP hp) h
      | false =>
        simp only [Bool.false_eq_true, if_false] at h
        cases h
        exact hstep m (g, false) hP hp

theorem loop_isSome (reg : Registry) (env : Env) (bf : Nat) (root : GoType)
    (sched : List (String × Object) → List (String × Object)) (hsched : IsSched sched)
    (H : ∀ n ∈ envNames env, (defineObject reg env bf (GoType.struct n)).isSome = true) :
    ∀ (fuel : Nat) (m : List (String × Object)),
      GraphOK env m → KAllowed reg env bf root m → (alKeys m).Nodup →
      (allowedNames reg env bf root).dedup.length + 1 < m.length + fuel →
      (defineLoopOrd reg env bf sched fuel m).isSome = true := by
  intro fuel
  induction fuel with
  | zero =>
    intro m hG hK hnd harith
    exfalso
    have hlen : (alKeys m).length = m.length := List.length_map _ _
    have hle := nodup_subset_length_le (alKeys m) (allowedNames reg env bf root) hnd hK
    omega
  | succ fuel ih =>
    intro m hG hK hnd harith
    have hnames := pass_types_names reg env bf sched m hsched hG
    have hps : (passOnceOrd reg env bf sched m).isSome = true := by
      rw [passOnceOrd_eq]
      apply foldT_isSome
      intro t ht hk
      obtain ⟨x, rfl⟩ := (kind_structK_iff t).1 hk
      exact H x (hnames _ ht x rfl)
    simp only [defineLoopOrd]
    cases hp : passOnceOrd reg env bf sched m with
    | none => rw [hp] at hps; cases hps
    | some res =>
      obtain ⟨m', d⟩ := res
      cases d with
      | false => simp
      | true =>
        simp only [if_pos rfl]
        have hp2 := hp
        rw [passOnceOrd_eq] at hp2
        obtain ⟨hG', hK'⟩ := foldT_pack3 reg env bf root _ hnames m false m' true hG hK hp2
        have hnd' := foldT_nodup reg env bf _ m false m' true hnd hp2
        have hgrow := foldT_growth reg env bf _ m m' hp2
        exact ih m' hG' hK' hnd' (by omega)

/-! ## Claim C3: termination of the graph-closure builder -/

/-- C3.  First part: for every root type and environment (the reachable
universe of named record types is always finite here — it is bounded by
the names the finite environment mentions), as long as the per-object
derivation itself returns (no Field-Enumerator panic, cf. C10), the
dirty-flag fixed-point loop of `define` performs finitely many passes and
stops: the builder produces a graph on which one more pass inserts
nothing.  Second part: the self-referential record `Rec` (referring to
itself through a pointer and through a sequence) yields the finite graph
whose only object is `Rec` itself. -/
theorem C3_closure_terminates :
    (∀ (reg : Registry) (env : Env) (bf : Nat) (root : GoType),
      (defineObject reg env bf root).isSome = true →
      (∀ n ∈ envNames env, (defineObject reg env bf (GoType.struct n)).isSome = true) →
      ∃ g, define reg env bf root = some g ∧
        passOnceOrd reg env bf (fun m => m) g = some (g, false)) ∧
    (define ptMapping recEnv 2 (GoType.struct "Rec") = some recGraph ∧
      alKeys recGraph = ["Rec"]) := by
  constructor
  · intro reg env bf root hroot H
    cases hdo : defineObject reg env bf root with
    | none => rw [hdo] at hroot; cases hroot
    | some obj =>
      have hG0 : GraphOK env [(obj.name, obj)] := by
        intro kv hkv
        rw [List.mem_singleton.1 hkv]
        exact defineObject_ObjOK reg env bf root obj hdo
      have hK0 : KAllowed reg env bf root [(obj.name, obj)] := by
        intro k hk
        simp only [alKeys, List.map_cons, List.map_nil, List.mem_singleton] at hk
        subst hk
        unfold allowedNames
        rw [hdo]
        exact List.mem_append_left _ (List.mem_singleton.2 rfl)
      have hnd0 : (alKeys [(obj.name, obj)]).Nodup := by simp [alKeys]
      have harith : (allowedNames reg env bf root).dedup.length + 1
          < ([(obj.name, obj)] : List (String × Object)).length + loopFuel reg env bf root := by
        unfold loopFuel
        simp only [List.length_cons, List.length_nil]
        omega
      have hsome := loop_isSome reg env bf root (fun m => m) (fun m => List.Perm.refl m) H
        (loopFuel reg env bf root) [(obj.name, obj)] hG0 hK0 hnd0 harith
      cases hloop : defineLoopOrd reg env bf (fun m => m) (loopFuel reg env bf root)
          [(obj.name, obj)] with
      | none => rw [hloop] at hsome; cases hsome
      | some g =>
        refine ⟨g, ?_, loop_fix reg env bf (fun m => m) _ _ g hloop⟩
        unfold define defineOrd
        rw [hdo]
        exact hloop
  · exact ⟨rfl, rfl⟩

/-- C3 witness: the first part applied to the self-referential `Rec`
environment. -/
theorem C3_closure_terminates_witness :
    ∃ g, define ptMapping recEnv 2 (GoType.struct "Rec") = some g ∧
      passOnceOrd ptMapping recEnv 2 (fun m => m) g = some (g, false) :=
  C3_closure_terminates.1 ptMapping recEnv 2 (GoType.struct "Rec") (by rfl) (by decide)

/-! ## Claim C2: closure completeness -/

/-- C2 counterexample: for the record `A` whose field `F` has type
`[][]B` (array-of-array-of-record, a case the claim explicitly includes),
the derived graph contains only `A`; the property reached through the
element-property chain `F.items.items` carries the structural-record
reference to `B`, but `B` is not a key of the graph — a dangling
reference remains after the builder terminates. -/
theorem C2_closure_counterexample :
    define ptMapping c2env 2 (GoType.struct "A") = some c2graph ∧
    ((c2prop.items.getD emptyProperty).items.getD emptyProperty).ref = makeRef "B" ∧
    "B" ∉ alKeys c2graph :=
  ⟨rfl, rfl, by decide⟩

/-- C2 as amended: completeness holds exactly for the references the
closure loop examines — for every object in the graph, every property in
its field mapping, and every property along that property's
`AdditionalProperties` chain (the chain the loop walks: direct record
fields, sequence-of-record via the unwrapped element `GoType`, and
mapping-value chains), a carried structural-record reference names a key
of the graph.  References buried under `Items` chains of nested sequences
are not examined and may dangle (see the counterexample). -/
theorem C2_closure_amended (reg : Registry) (env : Env) (bf : Nat) (root : GoType)
    (g : List (String × Object)) (h : define reg env bf root = some g) :
    ∀ kv ∈ g, ∀ fp ∈ kv.2.properties, ∀ q ∈ chainProps fp.2,
      q.ref ≠ "" → ∃ x, q.ref = makeRef x ∧ x ∈ alKeys g := by
  unfold define defineOrd at h
  cases hdo : defineObject reg env bf root with
  | none => rw [hdo] at h; cases h
  | some obj =>
    rw [hdo] at h
    have hP : GraphOK env g ∧ KAllowed reg env bf root g := by
      refine loop_inv reg env bf (fun m => m)
        (fun m => GraphOK env m ∧ KAllowed reg env bf root m) ?_ _ _ g ⟨?_, ?_⟩ h
      · intro m res hPm hpass
        rw [passOnceOrd_eq] at hpass
        obtain ⟨m', d⟩ := res
        exact foldT_pack3 reg env bf root _
          (pass_types_names reg env bf (fun m => m) m (fun m => List.Perm.refl m) hPm.1)
          m false m' d hPm.1 hPm.2 hpass
      · intro kv hkv
        rw [List.mem_singleton.1 hkv]
        exact defineObject_ObjOK reg env bf root obj hdo
      · intro k hk
        simp only [alKeys, List.map_cons, List.map_nil, List.mem_singleton] at hk
        subst hk
        unfold allowedNames
        rw [hdo]
        exact List.mem_append_left _ (List.mem_singleton.2 rfl)
    have hfix := loop_fix reg env bf (fun m => m) _ _ g h
    obtain ⟨_, hclosed⟩ := pass_false_eq reg env bf (fun m => m) g g hfix
    intro kv hkv fp hfp q hq href
    have hsig := hP.1 kv hkv fp hfp (q.ref, q.goType) (List.mem_map.2 ⟨q, hq, rfl⟩)
    obtain ⟨x, hgt, hrefx⟩ := hsig.1 href
    have hgt2 : q.goType = GoType.struct x := hgt
    have hrefx2 : q.ref = makeRef x := hrefx
    refine ⟨x, hrefx2, ?_⟩
    have hmem := mem_propsChainTypes kv.2 fp q hfp hq
    have hres := hclosed kv hkv q.goType hmem (by rw [hgt2]; rfl)
    rwa [hgt2, makeName_struct] at hres

/-- C2 witness: the amended statement applied to the `OuterW`/`Inner`
scenario, exhibiting the resolved reference of the direct record field
`S`. -/
theorem C2_closure_amended_witness :
    ∃ x, w2prop.ref = makeRef x ∧ x ∈ alKeys w2graph :=
  C2_closure_amended ptMapping w2env 2 (GoType.struct "OuterW") w2graph rfl
    ("OuterW", w2obj)
    (by rw [show w2graph = [("OuterW", w2obj), ("Inner", w2objI)] from rfl]
        exact List.mem_cons_self _ _)
    ("S", w2prop)
    (by rw [show w2obj.properties = [("S", w2prop)] from rfl]
        exact List.mem_cons_self _ _)
    w2prop
    (by rw [show chainProps w2prop = [w2prop] from rfl]
        exact List.mem_cons_self _ _)
    (by decide)

/-! ## Claim C8: schedule independence of the closure -/

theorem reach_complete (reg : Registry) (env : Env) (bf : Nat) (rootObj : Object)
    (sched : List (String × Object) → List (String × Object)) (hsched : IsSched sched)
    (g : List (String × Object))
    (hfix : passOnceOrd reg env bf sched g = some (g, false))
    (hroot : rootObj.name ∈ alKeys g) (hV : VInv reg env bf rootObj g) :
    ∀ k, Reach reg env bf rootObj k → k ∈ alKeys g := by
  intro k hk
  induction hk with
  | root => exact hroot
  | step k0 o t hreach ho hto hkind ih =>
    rcases mem_alKeys.1 ih with ⟨v, hv⟩
    have hobj := hV (k0, v) hv
    have hveq : v = o := Option.some.inj (hobj.symm.trans ho)
    subst hveq
    obtain ⟨_, hclosed⟩ := pass_false_eq reg env bf sched g g hfix
    have hkv : (k0, v) ∈ sched g := ((hsched g).mem_iff).2 hv
    exact hclosed (k0, v) hkv t hto hkind

theorem graph_lookup_eq_objAt (reg : Registry) (env : Env) (bf : Nat) (rootObj : Object)
    (g : List (String × Object)) (hV : VInv reg env bf rootObj g)
    (hnd : (alKeys g).Nodup) (k : String) (hk : k ∈ alKeys g) :
    ∃ o, alLookup g k = some o ∧ objAt reg env bf rootObj k = some o := by
  rcases mem_alKeys.1 hk with ⟨v, hv⟩
  exact ⟨v, alLookup_of_mem_nodup hv hnd, hV (k, v) hv⟩

/-- C8.  The working object map's iteration order is unspecified; for any
two per-pass iteration orders (schedules), two runs of the builder over
the same root, environment and registry state yield graphs equal up to
key ordering: the key multisets are permutations of one another and the
object stored under every key agrees, because insertion is keyed by the
derived name and the object inserted for a key is a function of the key
alone (the canonical `objAt`). -/
theorem C8_order_independent (reg : Registry) (env : Env) (bf : Nat) (root : GoType)
    (sched1 sched2 : List (String × Object) → List (String × Object))
    (hs1 : IsSched sched1) (hs2 : IsSched sched2)
    (g1 g2 : List (String × Object))
    (h1 : defineOrd reg env bf sched1 root = some g1)
    (h2 : defineOrd reg env bf sched2 root = some g2) :
    (alKeys g1).Perm (alKeys g2) ∧ ∀ k, alLookup g1 k = alLookup g2 k := by
  unfold defineOrd at h1 h2
  cases hdo : defineObject reg env bf root with
  | none => rw [hdo] at h1; cases h1
  | some rootObj =>
    rw [hdo] at h1 h2
    have hroot0 : rootObj.name ∈ alKeys [(rootObj.name, rootObj)] := by
      simp [alKeys]
    have hV0 : VInv reg env bf rootObj [(rootObj.name, rootObj)] := by
      intro kv hkv
      rw [List.mem_singleton.1 hkv]
      unfold objAt
      rw [if_pos rfl]
    have hS0 : SInv reg env bf rootObj [(rootObj.name, rootObj)] := by
      intro k hk
      simp only [alKeys, List.map_cons, List.map_nil, List.mem_singleton] at hk
      subst hk
      exact Reach.root
    have hnd0 : (alKeys [(rootObj.name, rootObj)]).Nodup := by simp [alKeys]
    have hinv : ∀ (sched : List (String × Object) → List (String × Object)),
        IsSched sched → ∀ g,
        defineLoopOrd reg env bf sched (loopFuel reg env bf root) [(rootObj.name, rootObj)]
          = some g →
        rootObj.name ∈ alKeys g ∧ VInv reg env bf rootObj g ∧ SInv reg env bf rootObj g ∧
          (alKeys g).Nodup := by
      intro sched hsched g hg
      refine loop_inv reg env bf sched
        (fun m => rootObj.name ∈ alKeys m ∧ VInv reg env bf rootObj m ∧
          SInv reg env bf rootObj m ∧ (alKeys m).Nodup) ?_ _ _ g
        ⟨hroot0, hV0, hS0, hnd0⟩ hg
      intro m res hPm hpass
      rw [passOnceOrd_eq] at hpass
      obtain ⟨m', d⟩ := res
      have hprov : ∀ t ∈ ((sched m).flatMap fun kv => propsChainTypes kv.2),
          ∃ k o, Reach reg env bf rootObj k ∧ objAt reg env bf rootObj k = some o ∧
            t ∈ propsChainTypes o := by
        intro t ht
        rcases List.mem_flatMap.1 ht with ⟨kv, hkv, htkv⟩
        have hkvm : kv ∈ m := ((hsched m).mem_iff).1 hkv
        exact ⟨kv.1, kv.2, hPm.2.2.1 kv.1 (List.mem_map.2 ⟨kv, hkvm, rfl⟩),
          hPm.2.1 kv hkvm, htkv⟩
      obtain ⟨ha, hb, hc⟩ := foldT_pack8 reg env bf rootObj _ hprov m false m' d
        hPm.1 hPm.2.1 hPm.2.2.1 hpass
      exact ⟨ha, hb, hc, foldT_nodup reg env bf _ m false m' d hPm.2.2.2 hpass⟩
    obtain ⟨hr1, hV1, hS1, hnd1⟩ := hinv sched1 hs1 g1 h1
    obtain ⟨hr2, hV2, hS2, hnd2⟩ := hinv sched2 hs2 g2 h2
    have hfix1 := loop_fix reg env bf sched1 _ _ g1 h1
    have hfix2 := loop_fix reg env bf sched2 _ _ g2 h2
    have hcomp1 := reach_complete reg env bf rootObj sched1 hs1 g1 hfix1 hr1 hV1
    have hcomp2 := reach_complete reg env bf rootObj sched2 hs2 g2 hfix2 hr2 hV2
    have hmemiff : ∀ k, k ∈ alKeys g1 ↔ k ∈ alKeys g2 :=
      fun k => ⟨fun hk => hcomp2 k (hS1 k hk), fun hk => hcomp1 k (hS2 k hk)⟩
    refine ⟨(List.perm_ext_iff_of_nodup hnd1 hnd2).2 hmemiff, ?_⟩
    intro k
    by_cases hk : k ∈ alKeys g1
    · obtain ⟨o1, hl1, ho1⟩ := graph_lookup_eq_objAt reg env bf rootObj g1 hV1 hnd1 k hk
      obtain ⟨o2, hl2, ho2⟩ := graph_lookup_eq_objAt reg env bf rootObj g2 hV2 hnd2 k
        ((hmemiff k).1 hk)
      rw [hl1, hl2, Option.some.inj (ho1.symm.trans ho2)]
    · have hk2 : k ∉ alKeys g2 := fun hmem => hk ((hmemiff k).2 hmem)
      rw [alLookup_eq_none.2 hk, alLookup_eq_none.2 hk2]

/-- C8 witness: the snapshot order and the reversed order on the diamond
environment produce graphs with permuted key lists (the concrete runs
insert `D` and `E` in opposite orders) and identical lookups. -/
theorem C8_order_independent_witness :
    (alKeys c8graph1).Perm (alKeys c8graph2) ∧
    alLookup c8graph1 "D" = alLookup c8graph2 "D" :=
  ⟨(C8_order_independent ptMapping c8env 2 (GoType.struct "A") (fun m => m)
      (fun m => m.reverse) (fun m => List.Perm.refl m) (fun m => List.reverse_perm m)
      c8graph1 c8graph2 rfl rfl).1,
   (C8_order_independent ptMapping c8env 2 (GoType.struct "A") (fun m => m)
      (fun m => m.reverse) (fun m => List.Perm.refl m) (fun m => List.reverse_perm m)
      c8graph1 c8graph2 rfl rfl).2 "D"⟩

end Swag
